import Mathlib

/-!
Shallow embedding of the jc-council-meetings-parser line-scanning core
(`src/parse_agenda.py`, `src/parse_minutes.py`, `src/split_packet.py`).

Text lines are modelled as `List Char` (the scripts split the page text on
newlines, so the scanned lines themselves contain no newline).  Each Python
regular expression used by the scanners is translated into a deterministic
matcher over `List Char`; the greedy/backtracking behaviour of the original
pattern is reproduced case by case (comments note the argument at the places
where the greedy run is forced to be maximal).  Python string falsiness,
`str.strip`, `str.split`, `re.sub` and friends are embedded directly.

The PDF-reading wrappers (`fitz.open`, text extraction, JSON/file output,
meeting-date probing, roster extraction) are the out-of-scope collaborators of
the spec; the functions below take the already extracted line sequence, the
roster, and for the splitter the per-page text list and page count.
-/

set_option maxHeartbeats 2000000
set_option maxRecDepth 4000

/-- Shorthand: the character list of a string literal. -/
def lit (s : String) : List Char := s.data

/-- Python `\s` on the characters that occur in these documents (ASCII). -/
def pyIsSpace (c : Char) : Bool :=
  c = ' ' || c = '\t' || c = '\n' || c = '\r' || c = '\x0b' || c = '\x0c'

/-- `\d` : ASCII decimal digit. -/
def isDigitCh (c : Char) : Bool := '0' ≤ c && c ≤ '9'

/-- `[A-Z]` (without IGNORECASE). -/
def isUpperCh (c : Char) : Bool := 'A' ≤ c && c ≤ 'Z'

/-- `[a-z]` (without IGNORECASE). -/
def isLowerCh (c : Char) : Bool := 'a' ≤ c && c ≤ 'z'

/-- A letter: `[A-Z]` or `[a-z]` under IGNORECASE. -/
def isAlphaCh (c : Char) : Bool := isUpperCh c || isLowerCh c

/-- ASCII `str.lower` on one character. -/
def lowerCh (c : Char) : Char :=
  if isUpperCh c then Char.ofNat (c.toNat + 32) else c

/-- ASCII `str.upper` on one character. -/
def upperCh (c : Char) : Char :=
  if isLowerCh c then Char.ofNat (c.toNat - 32) else c

/-- `str.lower`. -/
def lowerStr (s : List Char) : List Char := s.map lowerCh

/-- `str.capitalize`: first character upper-cased, the rest lower-cased. -/
def pyCapitalize : List Char → List Char
  | [] => []
  | c :: r => upperCh c :: r.map lowerCh

/-- `str.lstrip()`. -/
def lstripWs (s : List Char) : List Char := s.dropWhile pyIsSpace

/-- `str.rstrip()`. -/
def rstripWs (s : List Char) : List Char := (s.reverse.dropWhile pyIsSpace).reverse

/-- `str.strip()`. -/
def pyStrip (s : List Char) : List Char := rstripWs (lstripWs s)

/-- `str.rstrip(cs)` for an explicit character set. -/
def rstripSet (cs : List Char) (s : List Char) : List Char :=
  (s.reverse.dropWhile (fun c => cs.contains c)).reverse

/-- `str.strip(c)` for a single character (used by `sanitize_filename`). -/
def stripCh (c : Char) (s : List Char) : List Char :=
  ((s.dropWhile (fun x => x = c)).reverse.dropWhile (fun x => x = c)).reverse

/-- `(l.dropWhile p).length ≤ l.length` (not available under this name in the
toolchain, so proved here once and reused for the termination arguments). -/
theorem lenDropWhileLe {α : Type} (p : α → Bool) (l : List α) :
    (l.dropWhile p).length ≤ l.length :=
  List.Sublist.length_le (List.dropWhile_sublist p)

theorem lenTakeWhileLe {α : Type} (p : α → Bool) (l : List α) :
    (l.takeWhile p).length ≤ l.length :=
  List.Sublist.length_le (List.takeWhile_sublist p)

/-- `re.sub(r'\s+', ' ', s)`: every maximal whitespace run becomes one space.
(Structural recursion on a fuel that the caller sets to the string length:
every iteration consumes at least one character, so the fuel never runs out;
kept structural so that concrete runs reduce definitionally.) -/
def collapseWsF : Nat → List Char → List Char
  | _, [] => []
  | 0, s => s
  | fuel + 1, c :: rest =>
    if pyIsSpace c then ' ' :: collapseWsF fuel (rest.dropWhile pyIsSpace)
    else c :: collapseWsF fuel rest

def collapseWs (s : List Char) : List Char := collapseWsF s.length s

/-- `str.split(sep)` for a one-character separator (Python semantics:
`"".split('-') = [""]`, empty chunks are kept). -/
def splitOnCh (sep : Char) : List Char → List (List Char)
  | [] => [[]]
  | c :: rest =>
    let r := splitOnCh sep rest
    if c = sep then [] :: r
    else
      match r with
      | [] => [[c]]
      | g :: gs => (c :: g) :: gs

/-- `" ".join(parts)`. -/
def joinWithSpace : List (List Char) → List Char
  | [] => []
  | [x] => x
  | x :: xs => x ++ ' ' :: joinWithSpace xs

/-- Python `needle in hay` (substring containment). -/
def containsSub (needle : List Char) : List Char → Bool
  | [] => needle.isEmpty
  | c :: rest => needle.isPrefixOf (c :: rest) || containsSub needle rest

/-- Value of a digit character. -/
def digitVal (c : Char) : Nat := c.toNat - '0'.toNat

/-- Decimal value of a digit string (what `int()` returns on it). -/
def digitsVal (ds : List Char) : Nat := ds.foldl (fun a c => a * 10 + digitVal c) 0

/-- Python `str(n)` for a non-negative integer. -/
def natToChars (n : Nat) : List Char := Nat.toDigits 10 n

/-- Python `str(i)` for an integer. -/
def intToChars : Int → List Char
  | Int.ofNat n => natToChars n
  | Int.negSucc n => '-' :: natToChars (n + 1)

/-- Python `int(s)` on the inputs that occur here: a digit string, possibly
surrounded by whitespace.  Other inputs raise in Python; that failure is
modelled as `none`. -/
def pyIntNat (s : List Char) : Option Nat :=
  let t := pyStrip s
  if !t.isEmpty && t.all isDigitCh then some (digitsVal t) else none

/-- Truthiness of an optional string (`if x:` on a `str or None` value). -/
def optTruthy : Option (List Char) → Bool
  | some s => !s.isEmpty
  | none => false

/-! ## Regex building blocks

Every matcher below is anchored at the start of its input (Python `re.match`);
`re.search` variants scan positions left to right.  Greedy quantifiers whose
follower cannot overlap the quantified class are compiled to maximal runs —
each use notes why no backtracking is lost. -/

/-- `\s*`. -/
def skipWs (s : List Char) : List Char := s.dropWhile pyIsSpace

/-- `\s+X` where `X` cannot start with a whitespace character: require one
whitespace character and then consume the whole run (backtracking into a
shorter run would leave a whitespace character for `X`, which cannot match). -/
def reqWsThen : List Char → Option (List Char)
  | c :: r => if pyIsSpace c then some (skipWs r) else none
  | [] => none

/-- A maximal digit run whose length must lie in `[lo, hi]`.  Models
`\d{lo,hi}` whenever the following pattern element cannot match a digit: a
longer run makes every backtracking alternative place a digit where the
follower must match, so the maximal run either fits the bounds or the whole
pattern fails. -/
def digitRun (lo hi : Nat) (s : List Char) : Option (List Char × List Char) :=
  let d := s.takeWhile isDigitCh
  if lo ≤ d.length && d.length ≤ hi then some (d, s.dropWhile isDigitCh) else none

/-- `\d+` under the same no-digit-follower condition. -/
def digitRunPlus (s : List Char) : Option (List Char × List Char) :=
  let d := s.takeWhile isDigitCh
  if d.isEmpty then none else some (d, s.dropWhile isDigitCh)

/-- Exactly `k` characters satisfying `p` (`\d{k}` with an arbitrary
follower). -/
def takeExact (k : Nat) (p : Char → Bool) (s : List Char) : Option (List Char × List Char) :=
  let d := s.take k
  if d.length = k && d.all p then some (d, s.drop k) else none

/-- A literal character. -/
def litCh (c : Char) : List Char → Option (List Char)
  | x :: r => if x = c then some r else none
  | [] => none

/-- A literal word (case-sensitive); returns the rest on success. -/
def litStr (w : List Char) (s : List Char) : Option (List Char) :=
  if w.isPrefixOf s then some (s.drop w.length) else none

/-- A literal word under IGNORECASE (`w` is given lower-case); returns the
rest on success. -/
def ciPrefixR (w : List Char) (s : List Char) : Option (List Char) :=
  if (s.take w.length).map lowerCh = w then some (s.drop w.length) else none

/-- Greedy `(.+)` inside an all-whitespace run `w` preceded by `\s+`: the
engine backs the `\s+` off from the right until the dot group gets one
character, so the capture starts at the last position `j ≥ 1` holding a
non-newline character. -/
def dotPlusTail : List Char → Option (List Char)
  | [] => none
  | [_] => none
  | _ :: b :: rest =>
    match dotPlusTail (b :: rest) with
    | some cap => some cap
    | none =>
      if b = '\n' then none
      else some ((b :: rest).takeWhile (fun c => c != '\n'))

/-- Greedy `\s+(.+)` (`.` does not match a newline).  When non-whitespace
text follows the run the dot group captures it up to the next newline; when
the input is whitespace only the group is carved out of the run itself. -/
def wsThenRest (s : List Char) : Option (List Char) :=
  let w := s.takeWhile pyIsSpace
  let r := s.dropWhile pyIsSpace
  if r.isEmpty then dotPlusTail w
  else if w.isEmpty then none
  else some (r.takeWhile (fun c => c != '\n'))

/-- Greedy `\s{2,}(.+)`. -/
def ws2ThenRest (s : List Char) : Option (List Char) :=
  let w := s.takeWhile pyIsSpace
  let r := s.dropWhile pyIsSpace
  if r.isEmpty then
    match w with
    | _ :: rest => dotPlusTail rest
    | [] => none
  else if 2 ≤ w.length then some (r.takeWhile (fun c => c != '\n'))
  else none

/-! ## The line patterns of `parse_agenda.py` / `parse_minutes.py` -/

/-- The title character class `[A-Z\s\-\(\),&]` of the section-header
pattern. -/
def isSecTitleCh (c : Char) : Bool :=
  isUpperCh c || pyIsSpace c || c = '-' || c = '(' || c = ')' || c = ',' || c = '&'

/-- `section_re = ^\s*(\d{1,2})\.\s+([A-Z][A-Z\s\-\(\),&]+)` (re.match).
Returns `(int(group 1), group 2)`.  The digit run is maximal (follower `.`),
the whitespace run before the title is maximal (follower `[A-Z]`), and group 2
is the maximal class run of length ≥ 2. -/
def matchSectionHeader (line : List Char) : Option (Nat × List Char) := do
  let (d, s1) ← digitRun 1 2 (skipWs line)
  let s2 ← litCh '.' s1
  let s3 ← reqWsThen s2
  match s3 with
  | c :: rest =>
    if isUpperCh c then
      let t := rest.takeWhile isSecTitleCh
      if t.isEmpty then none else some (digitsVal d, c :: t)
    else none
  | [] => none

/-- `^\s*(\d{1,2})\.\s*$` : a section number alone on a line (minutes). -/
def matchSectionNumOnly (line : List Char) : Option Nat := do
  let (d, s1) ← digitRun 1 2 (skipWs line)
  let s2 ← litCh '.' s1
  if (skipWs s2).isEmpty then some (digitsVal d) else none

/-- `^[A-Z][A-Z\s\-\(\),&]+` tested against a stripped peek line (minutes). -/
def matchCapsTitle : List Char → Bool
  | c :: rest => isUpperCh c && !(rest.takeWhile isSecTitleCh).isEmpty
  | [] => false

/-- The dotted item-number token `(\d{1,2}\.\d{1,2})`; both digit runs are
maximal (followers `.` and — at every use — a whitespace class or `$`).
Returns the captured token and the rest. -/
def itemNumTok (s : List Char) : Option (List Char × List Char) := do
  let (d1, s1) ← digitRun 1 2 s
  let s2 ← litCh '.' s1
  let (d2, s3) ← digitRun 1 2 s2
  some (d1 ++ '.' :: d2, s3)

/-- `item_number_alone = ^\s*(\d{1,2}\.\d{1,2})\s*$`. -/
def matchItemAlone (line : List Char) : Option (List Char) := do
  let (num, r) ← itemNumTok (skipWs line)
  if (skipWs r).isEmpty then some num else none

/-- `item_with_title = ^\s*(\d{1,2}\.\d{1,2})\s+(.+)` ; returns
`(group 1, group 2)`. -/
def matchItemWithTitle (line : List Char) : Option (List Char × List Char) := do
  let (num, r) ← itemNumTok (skipWs line)
  let rest ← wsThenRest r
  some (num, rest)

/-- The minutes `item_re = ^\s*(\d{1,2}\.\d{1,2})\s` : a dotted item number
followed by one whitespace character. -/
def matchItemRe (line : List Char) : Option (List Char) := do
  let (num, r) ← itemNumTok (skipWs line)
  match r with
  | c :: _ => if pyIsSpace c then some num else none
  | [] => none

/-- The page-range fragment `(\d{1,3})\s*-\s*(\d{1,3})`; returns both values
and the rest.  Both runs are maximal (followers `-` via `\s*`, and at every
use a whitespace class or `$`). -/
def rangeTok (s : List Char) : Option (Nat × Nat × List Char) := do
  let (a, s1) ← digitRun 1 3 s
  let s2 ← litCh '-' (skipWs s1)
  let (b, s3) ← digitRun 1 3 (skipWs s2)
  some (digitsVal a, digitsVal b, s3)

/-- `pattern_a = ^\s*(\d{1,3})\s*-\s*(\d{1,3})\s+(\d{1,2}\.\d{1,2})\s+(.+)` :
page range, item number and inline title on one line.  Returns
`(page_start, page_end, item number, group 4)`. -/
def matchPatternA (line : List Char) : Option (Nat × Nat × List Char × List Char) := do
  let (a, b, s1) ← rangeTok (skipWs line)
  let s2 ← reqWsThen s1
  let (num, s3) ← itemNumTok s2
  let rest ← wsThenRest s3
  some (a, b, num, rest)

/-- `pattern_b_range_item = ^\s*(\d{1,3})\s*-\s*(\d{1,3})\s+(\d{1,2}\.\d{1,2})\s*$`. -/
def matchPatternB (line : List Char) : Option (Nat × Nat × List Char) := do
  let (a, b, s1) ← rangeTok (skipWs line)
  let s2 ← reqWsThen s1
  let (num, s3) ← itemNumTok s2
  if (skipWs s3).isEmpty then some (a, b, num) else none

/-- `pattern_c_range = ^\s*(\d{1,3})\s*-\s*(\d{1,3})\s*$`. -/
def matchPatternC (line : List Char) : Option (Nat × Nat) := do
  let (a, b, s1) ← rangeTok (skipWs line)
  if (skipWs s1).isEmpty then some (a, b) else none

/-- `file_number_re = ((?:Ord|Res)\.\s*\d{2}-\d{3})` matched at one position;
returns the captured identifier and the rest after the match. -/
def fileNumAt (s : List Char) : Option (List Char × List Char) := do
  let pre ←
    if (lit "Ord.").isPrefixOf s then some (lit "Ord.")
    else if (lit "Res.").isPrefixOf s then some (lit "Res.")
    else none
  let s1 := s.drop 4
  let w := s1.takeWhile pyIsSpace
  let s2 := s1.dropWhile pyIsSpace
  let (d2, s3) ← takeExact 2 isDigitCh s2
  let s4 ← litCh '-' s3
  let (d3, s5) ← takeExact 3 isDigitCh s4
  some (pre ++ w ++ d2 ++ '-' :: d3, s5)

/-- `file_number_re.search`: leftmost match anywhere in the line. -/
def fileNumSearch : List Char → Option (List Char)
  | [] => none
  | c :: rest =>
    match fileNumAt (c :: rest) with
    | some (cap, _) => some cap
    | none => fileNumSearch rest

/-- `file_number_re.match(s)` viewed as a Boolean (a match at the start). -/
def fileNumAtStart (s : List Char) : Bool := (fileNumAt s).isSome

/-- `re.sub(r'(Ord|Res)\.\s*', r'\1. ', s)` : normalize file-number spacing
(global substitution). -/
def normFileNumF : Nat → List Char → List Char
  | _, [] => []
  | 0, s => s
  | fuel + 1, c :: rest =>
    if (lit "Ord.").isPrefixOf (c :: rest) || (lit "Res.").isPrefixOf (c :: rest) then
      (c :: rest).take 3 ++ '.' :: ' ' :: normFileNumF fuel (((c :: rest).drop 4).dropWhile pyIsSpace)
    else c :: normFileNumF fuel rest

def normFileNum (s : List Char) : List Char := normFileNumF s.length s

/-- Try a list of literal alternatives under IGNORECASE; the capture keeps the
original text.  (All alternation lists used here have pairwise distinct first
letters, so at most one alternative can match and the order is immaterial.) -/
def matchKeywordCI (kws : List (List Char)) (s : List Char) : Option (List Char × List Char) :=
  match kws with
  | [] => none
  | k :: rest =>
    if (s.take k.length).map lowerCh = lowerStr k then some (s.take k.length, s.drop k.length)
    else matchKeywordCI rest s

/-- The tally token `\d+-\d+(?:-\d+)?`.  Each `\d+` before a `-` is a maximal
run (a shorter run leaves a digit where `-` must match); the final `\d+` is
greedy with no follower.  The optional third group is taken exactly when a `-`
followed by at least one digit is present. -/
def tallyTok (s : List Char) : Option (List Char × List Char) := do
  let (a, s1) ← digitRunPlus s
  let s2 ← litCh '-' s1
  let (b, s3) ← digitRunPlus s2
  match (do
    let s4 ← litCh '-' s3
    let (c, s5) ← digitRunPlus s4
    pure (c, s5) : Option (List Char × List Char)) with
  | some (c, s5) => some (a ++ '-' :: b ++ '-' :: c, s5)
  | none => some (a ++ '-' :: b, s3)

/-- The optional tally prefix group `(?:\s*[-–]?\s*(\d+-\d+(?:-\d+)?))?` of
`vote_re`.  If the inner tally fails the whole group matches empty and the
position is restored (taking the optional dash and then failing cannot be
saved by skipping it: the tally would then have to start at the dash). -/
def optTallyGroup (s : List Char) : Option (List Char) × List Char :=
  let s1 := skipWs s
  let s2 :=
    match s1 with
    | c :: r => if c = '-' || c = '–' then skipWs r else s1
    | [] => s1
  match tallyTok s2 with
  | some (t, rest) => (some t, rest)
  | none => (none, s)

/-- The result keywords of `vote_re`. -/
def voteKeywords : List (List Char) :=
  [lit "Introduced", lit "Approved", lit "Withdrawn", lit "Defeated", lit "Tabled", lit "Postponed"]

/-- Captures of a `vote_re` match. -/
structure VoteMatch where
  result : List Char
  tally : Option (List Char)
  detail : Option (List Char)
deriving DecidableEq

/-- `vote_re = ^\s*(Introduced|Approved|Withdrawn|Defeated|Tabled|Postponed)`
`(?:\s*[-–]?\s*(\d+-\d+(?:-\d+)?))?(?:\s{2,}(.+))?` with IGNORECASE.  Both
trailing groups are optional, so their failure never forces backtracking into
an earlier group. -/
def matchVote (s : List Char) : Option VoteMatch := do
  let (kw, s1) ← matchKeywordCI voteKeywords (skipWs s)
  let (t, s2) := optTallyGroup s1
  some ⟨kw, t, ws2ThenRest s2⟩

/-- The vote-detail continuation cue
`^(?:Councilperson|Council\s+president|and\s+Councilperson)` (IGNORECASE). -/
def isDetailCue (s : List Char) : Bool :=
  (ciPrefixR (lit "councilperson") s).isSome ||
  (match ciPrefixR (lit "council") s with
   | some r =>
     match reqWsThen r with
     | some r2 => (ciPrefixR (lit "president") r2).isSome
     | none => false
   | none => false) ||
  (match ciPrefixR (lit "and") s with
   | some r =>
     match reqWsThen r with
     | some r2 => (ciPrefixR (lit "councilperson") r2).isSome
     | none => false
   | none => false)

/-- The cue alternation `(?:Councilperson|Council\s+president\s+pro\s+temp)`
(IGNORECASE) of `extract_named_members`; returns the rest after the cue. -/
def cueAt (s : List Char) : Option (List Char) :=
  match ciPrefixR (lit "councilperson") s with
  | some r => some r
  | none => do
    let a1 ← ciPrefixR (lit "council") s
    let a2 ← reqWsThen a1
    let a3 ← ciPrefixR (lit "president") a2
    let a4 ← reqWsThen a3
    let a5 ← ciPrefixR (lit "pro") a4
    let a6 ← reqWsThen a5
    ciPrefixR (lit "temp") a6

/-- One attempted match of the `extract_named_members` pattern
`cue\s+([A-Z][a-z]+)` (IGNORECASE) at the current position; the capture is the
maximal letter run of length ≥ 2, kept in its original case. -/
def parseMemberAt (s : List Char) : Option (List Char × List Char) := do
  let r1 ← cueAt s
  let r2 ← reqWsThen r1
  let d := r2.takeWhile isAlphaCh
  if 2 ≤ d.length then some (d, r2.dropWhile isAlphaCh) else none

theorem ciPrefixR_length_le (w s r : List Char) (h : ciPrefixR w s = some r) :
    r.length ≤ s.length := by
  unfold ciPrefixR at h
  split at h
  · cases h
    have := List.length_drop w.length s
    omega
  · cases h

theorem reqWsThen_length_lt (s r : List Char) (h : reqWsThen s = some r) :
    r.length < s.length := by
  cases s with
  | nil => simp [reqWsThen] at h
  | cons c t =>
    simp only [reqWsThen] at h
    split at h
    · cases h
      have := lenDropWhileLe pyIsSpace t
      simp only [skipWs, List.length_cons]
      omega
    · cases h

theorem cueAt_length_le (s r : List Char) (h : cueAt s = some r) :
    r.length ≤ s.length := by
  unfold cueAt at h
  split at h
  next heq =>
    cases h
    exact ciPrefixR_length_le _ _ _ heq
  next =>
    simp only [Option.bind_eq_bind, Option.bind_eq_some] at h
    obtain ⟨a1, ha1, h⟩ := h
    obtain ⟨a2, ha2, h⟩ := h
    obtain ⟨a3, ha3, h⟩ := h
    obtain ⟨a4, ha4, h⟩ := h
    obtain ⟨a5, ha5, h⟩ := h
    obtain ⟨a6, ha6, h⟩ := h
    have l1 := ciPrefixR_length_le _ _ _ ha1
    have l2 := reqWsThen_length_lt _ _ ha2
    have l3 := ciPrefixR_length_le _ _ _ ha3
    have l4 := reqWsThen_length_lt _ _ ha4
    have l5 := ciPrefixR_length_le _ _ _ ha5
    have l6 := reqWsThen_length_lt _ _ ha6
    have l7 := ciPrefixR_length_le _ _ _ h
    omega

theorem parseMemberAt_length_lt (s name rest : List Char)
    (h : parseMemberAt s = some (name, rest)) : rest.length < s.length := by
  unfold parseMemberAt at h
  simp only [Option.bind_eq_bind, Option.bind_eq_some] at h
  obtain ⟨r1, hr1, h⟩ := h
  obtain ⟨r2, hr2, h⟩ := h
  have l1 := cueAt_length_le _ _ hr1
  have l2 := reqWsThen_length_lt _ _ hr2
  split at h
  · cases h
    have := lenDropWhileLe isAlphaCh r2
    omega
  · cases h

/-- `re.finditer` of the member pattern over a detail text: scan left to
right, emit each capture, continue after the match. -/
def findMembersF : Nat → List Char → List (List Char)
  | _, [] => []
  | 0, _ => []
  | fuel + 1, c :: rest =>
    match parseMemberAt (c :: rest) with
    | some (name, after) => name :: findMembersF fuel after
    | none => findMembersF fuel rest

def findMembers (s : List Char) : List (List Char) := findMembersF s.length s

/-! ## `parse_minutes.py`: tallies, rosters, breakdowns -/

/-- `extract_named_members(text, roster)`: every name captured after a cue,
matched case-insensitively against the roster (falling back to the captured
text when no roster member matches). -/
def extract_named_members (text : List Char) (roster : List (List Char)) : List (List Char) :=
  (findMembers text).map fun name =>
    match roster.find? (fun m => lowerStr m = lowerStr name) with
    | some m => m
    | none => name

/-- `parse_vote_tally(tally_str)`: strip, split on `-`, parse the first three
chunks as ints (missing chunks default to 0).  `split` always returns at least
one chunk, so the first `int()` always runs; an unparsable chunk raises in
Python and is modelled as `none`. -/
def parse_vote_tally (s : List Char) : Option (Nat × Nat × Nat) := do
  let parts := splitOnCh '-' (pyStrip s)
  let ayes ← pyIntNat (parts.getD 0 [])
  let nays ← if 1 < parts.length then pyIntNat (parts.getD 1 []) else some 0
  let abst ← if 2 < parts.length then pyIntNat (parts.getD 2 []) else some 0
  some (ayes, nays, abst)

/-- The per-member vote lists. -/
structure VoteBreakdown where
  aye : List (List Char)
  nay : List (List Char)
  abstain : List (List Char)
  absent : List (List Char)
deriving DecidableEq

/-- Branch condition `'nay' in detail_text.lower()` guarded by
`if detail_text:`. -/
def detailHasNay (detail : List Char) : Bool :=
  !detail.isEmpty && containsSub (lit "nay") (lowerStr detail)

/-- Branch condition for the `elif 'abstain' in detail_lower` arm. -/
def detailHasAbstain (detail : List Char) : Bool :=
  !detail.isEmpty && !containsSub (lit "nay") (lowerStr detail) &&
    containsSub (lit "abstain") (lowerStr detail)

/-- `build_vote_breakdown(result, tally_str, detail_text, roster)`.  The
`result` argument is unused by the source function but kept in the signature.
`none` models the exception `parse_vote_tally` would raise on an unparsable
tally (never reached from the scanner, whose tallies come from `\d+-\d+`
groups). -/
def build_vote_breakdown (result : List Char) (tally_str : List Char)
    (detail_text : List Char) (roster : List (List Char)) : Option VoteBreakdown := do
  let (ayes_count, nays_count, abstain_count) ← parse_vote_tally tally_str
  let named := if detail_text.isEmpty then [] else extract_named_members detail_text roster
  let named_nay := if detailHasNay detail_text then named else []
  let named_abstain := if detailHasAbstain detail_text then named else []
  let accounted := named_nay ++ named_abstain
  let total_present := ayes_count + nays_count + abstain_count
  let absent_count : Int := (roster.length : Int) - (total_present : Int)
  let remaining := roster.filter fun m => decide (m ∉ accounted)
  let _ := result
  if absent_count > 0 && remaining.length > ayes_count then
    some ⟨remaining.take ayes_count, named_nay, named_abstain, remaining.drop ayes_count⟩
  else
    some ⟨remaining, named_nay, named_abstain, []⟩

/-! ## `parse_agenda.py`: section classification -/

/-- `classify_section(number, title)`: ordered keyword containment over the
lower-cased, stripped title.  The `number` argument is unused by the source
function but kept in the signature. -/
def classify_section (number : Nat) (title : List Char) : List Char :=
  let _ := number
  let t := pyStrip (lowerStr title)
  if containsSub (lit "first reading") t then lit "ordinance_first_reading"
  else if containsSub (lit "second reading") t || containsSub (lit "hearing") t then
    lit "ordinance_second_reading"
  else if containsSub (lit "claims") t then lit "claims"
  else if containsSub (lit "resolution") t then lit "resolutions"
  else if containsSub (lit "public request") t then lit "public_hearing"
  else if containsSub (lit "petition") t || containsSub (lit "communication") t then
    lit "petitions_communications"
  else if containsSub (lit "officers") t then lit "officers_communications"
  else if containsSub (lit "reports") t || containsSub (lit "directors") t then
    lit "reports_of_directors"
  else if containsSub (lit "regular meeting") t then lit "regular_meeting"
  else if containsSub (lit "reception") t then lit "reception_bid"
  else if containsSub (lit "deferred") t || containsSub (lit "tabled") t then lit "deferred"
  else if containsSub (lit "adjournment") t then lit "adjournment"
  else lit "other"

/-- `item_type_from_section(section_type)`. -/
def item_type_from_section (section_type : List Char) : List Char :=
  if containsSub (lit "ordinance") section_type then lit "ordinance"
  else if containsSub (lit "resolution") section_type then lit "resolution"
  else if containsSub (lit "claims") section_type then lit "claims"
  else lit "other"

/-! ## The `re.sub` cleanups applied to titles -/

/-- `re.sub(pat, '', s)` for a `$`-anchored pattern: drop the suffix starting
at the leftmost position where `p` matches through to the end (none of the
patterns used here can match the empty string without consuming a required
literal, so the scan over start positions is exact). -/
def subSuffix (p : List Char → Bool) : List Char → List Char
  | [] => []
  | c :: rest => if p (c :: rest) then [] else c :: subSuffix p rest

/-- The tail `\s*-?\s*Pdf\s*$` shared by several cleanup patterns.  Taking the
optional dash and failing cannot be saved by skipping it (the literal `Pdf`
would then have to match at the dash). -/
def pdfTail (s : List Char) : Bool :=
  let s1 := skipWs s
  let s2 := match s1 with | '-' :: r => skipWs r | _ => s1
  match litStr (lit "Pdf") s2 with
  | some r => (skipWs r).isEmpty
  | none => false

/-- `Withdrawn\s*-?\s*Pdf` matched at one position; returns the rest. -/
def withdrawnPdfAt (s : List Char) : Option (List Char) := do
  let r ← litStr (lit "Withdrawn") s
  let r2 := skipWs r
  let r3 := match r2 with | '-' :: t => skipWs t | _ => r2
  litStr (lit "Pdf") r3

/-- The optional `\d{2}-\d{3}` group used inside the cleanup patterns; commits
when it parses (the rest of those patterns can never match at a leading
digit, so skipping a parsable group cannot succeed where committing fails). -/
def optFileDigits (s : List Char) : List Char :=
  match (do
    let (_, r1) ← takeExact 2 isDigitCh s
    let r2 ← litCh '-' r1
    let (_, r3) ← takeExact 3 isDigitCh r2
    pure r3 : Option (List Char)) with
  | some r => r
  | none => s

/-- Agenda title cleanup pattern
`\s*(?:Ord|Res)\.\s*\d{2}-\d{3}\s*-?\s*Pdf\s*$` tested at one position. -/
def tailAgendaPdf (s : List Char) : Bool :=
  let s1 := skipWs s
  if (lit "Ord.").isPrefixOf s1 || (lit "Res.").isPrefixOf s1 then
    match (do
      let (_, r1) ← takeExact 2 isDigitCh (skipWs (s1.drop 4))
      let r2 ← litCh '-' r1
      let (_, r3) ← takeExact 3 isDigitCh r2
      pure r3 : Option (List Char)) with
    | some r3 => pdfTail r3
    | none => false
  else false

/-- Minutes title cleanup pattern (line 372)
`\s*(?:Ord|Res)\.\s*(?:\d{2}-\d{3})?\s*-?\s*(?:Pdf|Withdrawn\s*-?\s*Pdf)?\s*$`
tested at one position.  The trailing alternation is tried in pattern order
and finally skipped. -/
def tail372 (s : List Char) : Bool :=
  let s1 := skipWs s
  if (lit "Ord.").isPrefixOf s1 || (lit "Res.").isPrefixOf s1 then
    let s2 := optFileDigits (skipWs (s1.drop 4))
    let s3 := skipWs s2
    let s4 := match s3 with | '-' :: r => skipWs r | _ => s3
    (if (lit "Pdf").isPrefixOf s4 then (skipWs (s4.drop 3)).isEmpty else false) ||
    (match withdrawnPdfAt s4 with
     | some r => (skipWs r).isEmpty
     | none => false) ||
    (skipWs s4).isEmpty
  else false

/-- Minutes title cleanup pattern (line 373) `\s*Withdrawn\s*-?\s*Pdf\s*$`
tested at one position. -/
def tail373 (s : List Char) : Bool :=
  match withdrawnPdfAt (skipWs s) with
  | some r => (skipWs r).isEmpty
  | none => false

/-- The trailing `\s*-?\s*` of the global file-reference pattern (greedy,
deterministic: whitespace and dash cannot overlap). -/
def dashWsTail (s : List Char) : List Char :=
  match skipWs s with
  | '-' :: t => skipWs t
  | s1 => s1

theorem dashWsTail_length_le (s : List Char) : (dashWsTail s).length ≤ s.length := by
  unfold dashWsTail
  have h1 := lenDropWhileLe pyIsSpace s
  cases hsk : skipWs s with
  | nil => simp
  | cons y ys =>
    have h2 : (y :: ys).length ≤ s.length := by
      rw [← hsk]; simpa [skipWs] using h1
    split
    next t heq =>
      injection heq with hy hys
      rw [← hys]
      have h3 := lenDropWhileLe pyIsSpace ys
      simp only [skipWs] at h3 ⊢
      simp only [List.length_cons] at h2
      omega
    next => exact h2

theorem takeExact_length (k : Nat) (p : Char → Bool) (s d r : List Char)
    (h : takeExact k p s = some (d, r)) : r.length + k = s.length := by
  simp only [takeExact] at h
  split at h
  next hc =>
    simp only [Option.some_inj, Prod.mk.injEq] at h
    obtain ⟨hd, hr⟩ := h
    have h1 : (s.take k).length = k := by
      have := Bool.and_eq_true _ _ |>.mp hc
      exact of_decide_eq_true this.1
    have h2 := List.length_take k s
    have h3 := List.length_drop k s
    subst hr
    omega
  · cases h

/-- `takeExact` keeping only the rest (for patterns whose digits are not
captured). -/
def dropExact (k : Nat) (p : Char → Bool) (s : List Char) : Option (List Char) :=
  (takeExact k p s).map Prod.snd

theorem dropExact_length (k : Nat) (p : Char → Bool) (s r : List Char)
    (h : dropExact k p s = some r) : r.length + k = s.length := by
  simp only [dropExact, Option.map_eq_some'] at h
  obtain ⟨⟨d, r0⟩, hd, hr⟩ := h
  cases hr
  exact takeExact_length k p s d r0 hd

theorem litCh_length (c : Char) (s r : List Char) (h : litCh c s = some r) :
    r.length + 1 = s.length := by
  cases s with
  | nil => simp [litCh] at h
  | cons x t =>
    simp only [litCh] at h
    split at h
    · cases h; simp
    · cases h

/-- One match of the global pattern (line 375)
`\s*(?:Ord|Res)\.\s*\d{2}-\d{3}\s*-?\s*`; returns the rest after the match. -/
def fileRefAt (s : List Char) : Option (List Char) :=
  let s1 := skipWs s
  if (lit "Ord.").isPrefixOf s1 || (lit "Res.").isPrefixOf s1 then do
    let r1 ← dropExact 2 isDigitCh (skipWs (s1.drop 4))
    let r2 ← litCh '-' r1
    let r3 ← dropExact 3 isDigitCh r2
    pure (dashWsTail r3)
  else none

theorem fileRefAt_length_lt (s r : List Char) (h : fileRefAt s = some r) :
    r.length < s.length := by
  simp only [fileRefAt] at h
  split at h
  next hpre =>
    simp only [Option.bind_eq_bind, Option.bind_eq_some, Option.pure_def,
      Option.some_inj] at h
    obtain ⟨r1, h1, h⟩ := h
    obtain ⟨r2, h2, h⟩ := h
    obtain ⟨r3, h3, h⟩ := h
    have h4 : 4 ≤ (skipWs s).length := by
      have hlen : (lit "Ord.").length = 4 := rfl
      have hlen2 : (lit "Res.").length = 4 := rfl
      rcases Bool.or_eq_true _ _ |>.mp hpre with hx | hx
      · have := List.IsPrefix.length_le ((List.isPrefixOf_iff_prefix).mp hx)
        omega
      · have := List.IsPrefix.length_le ((List.isPrefixOf_iff_prefix).mp hx)
        omega
    have hs1 := lenDropWhileLe pyIsSpace s
    have hd4 := List.length_drop 4 (skipWs s)
    have hsk2 := lenDropWhileLe pyIsSpace ((skipWs s).drop 4)
    have e1 := dropExact_length 2 isDigitCh _ _ h1
    have e2 := litCh_length '-' _ _ h2
    have e3 := dropExact_length 3 isDigitCh _ _ h3
    have e4 := dashWsTail_length_le r3
    subst h
    simp only [skipWs] at *
    omega
  · cases h

/-- The global substitution (line 375)
`re.sub(r'\s*(?:Ord|Res)\.\s*\d{2}-\d{3}\s*-?\s*', ' ', title)`. -/
def sub375F : Nat → List Char → List Char
  | _, [] => []
  | 0, s => s
  | fuel + 1, c :: rest =>
    match fileRefAt (c :: rest) with
    | some after => ' ' :: sub375F fuel after
    | none => c :: sub375F fuel rest

def sub375 (s : List Char) : List Char := sub375F s.length s

/-- One match of the global pattern (line 378)
`:\s*(?:Approved|Withdrawn|Defeated)\s*-?\s*\d+-\d+(?:-\d+)?` (IGNORECASE);
returns the rest after the match.  The `\s*-?\s*` fragment is `dashWsTail`. -/
def resTallyAt (s : List Char) : Option (List Char) := do
  let r0 ← litCh ':' s
  let (_, r2) ← matchKeywordCI [lit "Approved", lit "Withdrawn", lit "Defeated"] (skipWs r0)
  let (_, r5) ← tallyTok (dashWsTail r2)
  pure r5

theorem matchKeywordCI_length_le (kws : List (List Char)) (s cap r : List Char)
    (h : matchKeywordCI kws s = some (cap, r)) : r.length ≤ s.length := by
  induction kws with
  | nil => simp [matchKeywordCI] at h
  | cons k rest ih =>
    simp only [matchKeywordCI] at h
    split at h
    · simp only [Option.some_inj, Prod.mk.injEq] at h
      obtain ⟨h1, h2⟩ := h
      subst h2
      have := List.length_drop k.length s
      omega
    · exact ih h

theorem digitRunPlus_length_le (s d r : List Char) (h : digitRunPlus s = some (d, r)) :
    r.length ≤ s.length := by
  simp only [digitRunPlus] at h
  split at h
  · cases h
  · simp only [Option.some_inj, Prod.mk.injEq] at h
    obtain ⟨h1, h2⟩ := h
    subst h2
    exact lenDropWhileLe isDigitCh s

theorem tallyTok_length_le (s t r : List Char) (h : tallyTok s = some (t, r)) :
    r.length ≤ s.length := by
  simp only [tallyTok, Option.bind_eq_bind, Option.bind_eq_some] at h
  obtain ⟨⟨a, s1⟩, h1, h⟩ := h
  obtain ⟨s2, h2, h⟩ := h
  obtain ⟨⟨b, s3⟩, h3, h⟩ := h
  dsimp only at h2 h3 h
  have l1 := digitRunPlus_length_le _ _ _ h1
  have l2 := litCh_length '-' _ _ h2
  have l3 := digitRunPlus_length_le _ _ _ h3
  split at h
  next c s5 hin =>
    simp only [Option.bind_eq_bind, Option.bind_eq_some, Option.pure_def,
      Option.some_inj] at hin
    obtain ⟨s4, h4, hin⟩ := hin
    obtain ⟨⟨cc, s5x⟩, h5, hin⟩ := hin
    have l4 := litCh_length '-' _ _ h4
    have l5 := digitRunPlus_length_le _ _ _ h5
    simp only [Option.some_inj, Prod.mk.injEq] at h
    obtain ⟨hh1, hh2⟩ := h
    cases hin
    subst hh2
    dsimp only
    omega
  next hin =>
    simp only [Option.some_inj, Prod.mk.injEq] at h
    obtain ⟨hh1, hh2⟩ := h
    subst hh2
    omega

theorem resTallyAt_length_lt (s r : List Char) (h : resTallyAt s = some r) :
    r.length < s.length := by
  simp only [resTallyAt, Option.bind_eq_bind, Option.bind_eq_some, Option.pure_def,
    Option.some_inj] at h
  obtain ⟨r0, h0, h⟩ := h
  obtain ⟨⟨cap, r2⟩, h2, h⟩ := h
  obtain ⟨⟨t, r5⟩, h5, h⟩ := h
  dsimp only at h2 h5 h
  have l0 := litCh_length ':' _ _ h0
  have l1 := lenDropWhileLe pyIsSpace r0
  have l2 := matchKeywordCI_length_le _ _ _ _ h2
  have l3 := dashWsTail_length_le r2
  have l4 := tallyTok_length_le _ _ _ h5
  subst h
  simp only [skipWs] at *
  omega

/-- The global substitution (line 378): remove every
`: <result keyword> <tally>` fragment (IGNORECASE). -/
def sub378F : Nat → List Char → List Char
  | _, [] => []
  | 0, s => s
  | fuel + 1, c :: rest =>
    match resTallyAt (c :: rest) with
    | some after => sub378F fuel after
    | none => c :: sub378F fuel rest

def sub378 (s : List Char) : List Char := sub378F s.length s

/-! ## `parse_minutes.py`: per-item line processing -/

/-- `re.sub(r'^\s*\d{1,2}\.\d{1,2}\s+', '', iline)` : drop the leading item
number (anchored; unchanged when the pattern fails to match). -/
def stripLeadItemNum (l : List Char) : List Char :=
  match itemNumTok (skipWs l) with
  | some (_, r) =>
    match r with
    | c :: r2 => if pyIsSpace c then r2.dropWhile pyIsSpace else l
    | [] => l
  | none => l

/-- `^Withdrawn\s*-?\s*Pdf\s*$` (match on a stripped line). -/
def matchWithdrawnPdf (s : List Char) : Bool :=
  match withdrawnPdfAt s with
  | some r => (skipWs r).isEmpty
  | none => false

/-- `^(?:Ord|Res)\.\s*-?\s*Pdf\s*$` (match on a stripped line). -/
def matchOrdResPdf (s : List Char) : Bool :=
  if (lit "Ord.").isPrefixOf s || (lit "Res.").isPrefixOf s then
    let s1 := dashWsTail (s.drop 4)
    match litStr (lit "Pdf") s1 with
    | some r => (skipWs r).isEmpty
    | none => false
  else false

/-- One attempted match of the fallback pattern (line 358)
`(Approved|Withdrawn|Defeated)\s*[-–]?\s*(\d+-\d+(?:-\d+)?)` (IGNORECASE) at
the current position; returns `(group 1, group 2)`. -/
def resultTallyAt (s : List Char) : Option (List Char × List Char) := do
  let (kw, s1) ← matchKeywordCI [lit "Approved", lit "Withdrawn", lit "Defeated"] s
  let s2 := skipWs s1
  let s3 :=
    match s2 with
    | c :: r => if c = '-' || c = '–' then skipWs r else s2
    | [] => s2
  let (t, _) ← tallyTok s3
  some (kw, t)

/-- `re.search` of the line-358 fallback pattern: leftmost match. -/
def searchResultTally : List Char → Option (List Char × List Char)
  | [] => none
  | c :: rest =>
    match resultTallyAt (c :: rest) with
    | some r => some r
    | none => searchResultTally rest

/-- One attempted match of the claims fallback pattern (line 364)
`:\s*-?\s*(\d+-\d+(?:-\d+)?)` at the current position. -/
def colonTallyAt (s : List Char) : Option (List Char) := do
  let r0 ← litCh ':' s
  let (t, _) ← tallyTok (dashWsTail r0)
  some t

/-- `re.search` of the claims fallback pattern: leftmost match. -/
def searchColonTally : List Char → Option (List Char)
  | [] => none
  | c :: rest =>
    match colonTallyAt (c :: rest) with
    | some t => some t
    | none => searchColonTally rest

/-- `" ".join(il.strip() for il in item_lines)`. -/
def combinedOf (item_lines : List (List Char)) : List Char :=
  joinWithSpace (item_lines.map pyStrip)

/-- The lookahead (lines 324-332) that pulls named-voter continuation lines
into the vote detail: skip blanks, take cue lines, stop at the first other
line. -/
def detailCont : List (List Char) → List (List Char)
  | [] => []
  | l :: ls =>
    let k := pyStrip l
    if k.isEmpty then detailCont ls
    else if isDetailCue k then k :: detailCont ls
    else []

/-- The running state of the per-item parsing loop (lines 297-352). -/
structure ItemParseState where
  title_parts : List (List Char)
  vote_result : Option (List Char)
  vote_tally : Option (List Char)
  vote_detail_parts : List (List Char)
  file_number : Option (List Char)
  found_vote : Bool
deriving DecidableEq

/-- The initial per-item state. -/
def initItemState : ItemParseState := ⟨[], none, none, [], none, false⟩

/-- One pass of the `for j, iline in enumerate(item_lines)` loop of
`parse_minutes` (lines 305-352).  `first` is true exactly for `j == 0`. -/
def procItemLines (first : Bool) (ls : List (List Char)) (st : ItemParseState) :
    ItemParseState :=
  match ls with
  | [] => st
  | l :: rest =>
    let istripped := pyStrip l
    let st1 :=
      match fileNumSearch istripped with
      | some fn => { st with file_number := some (normFileNum fn) }
      | none => st
    match matchVote istripped with
    | some vm =>
      let d0 :=
        match vm.detail with
        | some d => st1.vote_detail_parts ++ [pyStrip d]
        | none => st1.vote_detail_parts
      procItemLines false rest
        { st1 with
          vote_result := some (pyCapitalize vm.result)
          vote_tally := match vm.tally with | some t => some t | none => st1.vote_tally
          vote_detail_parts := d0 ++ detailCont rest
          found_vote := true }
    | none =>
      if !st1.found_vote && !istripped.isEmpty then
        if first then
          let tt := pyStrip (stripLeadItemNum l)
          procItemLines false rest
            { st1 with
              title_parts := if tt.isEmpty then st1.title_parts else st1.title_parts ++ [tt] }
        else if fileNumAtStart istripped then procItemLines false rest st1
        else if matchWithdrawnPdf istripped then procItemLines false rest st1
        else if matchOrdResPdf istripped then procItemLines false rest st1
        else procItemLines false rest { st1 with title_parts := st1.title_parts ++ [istripped] }
      else procItemLines false rest st1

/-- An emitted minutes record; `votes`/`vote_detail` are `none` exactly when
the JSON key is omitted, `title`/`result` are `none` for JSON null. -/
structure MinutesItem where
  item_number : List Char
  title : Option (List Char)
  file_number : Option (List Char)
  result : Option (List Char)
  vote_tally : Option (List Char)
  votes : Option VoteBreakdown
  vote_detail : Option (List Char)
deriving DecidableEq

/-- `item_number.split('.')[0]`. -/
def sectionPfx (s : List Char) : List Char := s.takeWhile (fun c => c != '.')

/-- The section prefixes processed by the minutes scan (line 267). -/
def minutesSecs : List (List Char) := [lit "3", lit "4", lit "9", lit "10"]

/-- The extended prefix set that ends an item block (line 284). -/
def minutesStopSecs : List (List Char) :=
  [lit "3", lit "4", lit "5", lit "6", lit "7", lit "8", lit "9", lit "10", lit "11", lit "12"]

/-- A line that terminates the item-block gathering loop (lines 277-292):
a new item whose prefix is in the extended set, a one-line section header, or
a standalone section number. -/
def muStopLine (l : List Char) : Bool :=
  (match matchItemRe l with
   | some num => minutesStopSecs.contains (sectionPfx num)
   | none => false) ||
  (matchSectionHeader l).isSome ||
  (matchSectionNumOnly l).isSome

/-- Gather the lines of one minutes item (blank lines included), returning the
gathered block and the unconsumed remainder. -/
def gatherItemLines : List (List Char) → List (List Char) × List (List Char)
  | [] => ([], [])
  | l :: rest =>
    if muStopLine l then ([], l :: rest)
    else
      let (xs, rem) := gatherItemLines rest
      (l :: xs, rem)

theorem gatherItemLines_length_le (ls : List (List Char)) :
    (gatherItemLines ls).2.length ≤ ls.length := by
  induction ls with
  | nil => simp [gatherItemLines]
  | cons l rest ih =>
    simp only [gatherItemLines]
    split
    · simp
    · simp only [List.length_cons]
      omega

/-- `lines[i].strip()` blank test used by lookaheads. -/
def isBlank (l : List Char) : Bool := (pyStrip l).isEmpty

/-- Skip blank lines (`while ... not lines[peek].strip(): peek += 1`). -/
def dropBlanks (ls : List (List Char)) : List (List Char) := ls.dropWhile isBlank

/-- The minutes section tracking (lines 243-253): a one-line header, or a
standalone section number whose next non-blank line looks like an all-caps
title (the peek does not consume). -/
def muSectionMatch (l : List Char) (rest : List (List Char)) : Option Nat :=
  match matchSectionHeader l with
  | some (n, _) => some n
  | none =>
    match matchSectionNumOnly l with
    | some n =>
      match dropBlanks rest with
      | p :: _ => if matchCapsTitle (pyStrip p) then some n else none
      | [] => none
    | none => none

/-- The `votes` value of the assembly step (lines 383-399): an explicit empty
breakdown for a withdrawn result without tally, a reconstructed breakdown when
a tally is present, and `None` (omission) otherwise. -/
def assembleVotes (vote_result : Option (List Char)) (vote_tally : Option (List Char))
    (vote_detail : List Char) (roster : List (List Char)) : Option VoteBreakdown :=
  match vote_result with
  | none => none
  | some r =>
    if lowerStr r = lit "withdrawn" && !optTruthy vote_tally then some ⟨[], [], [], []⟩
    else if optTruthy vote_tally then
      match vote_tally with
      | some t => build_vote_breakdown r t vote_detail roster
      | none => none
    else none

/-- The minutes title clean-up chain (lines 369-378). -/
def cleanMinutesTitle (title_parts : List (List Char)) : List Char :=
  let t0 := joinWithSpace title_parts
  let t1 := pyStrip (collapseWs t0)
  let t2 := pyStrip (subSuffix tail372 t1)
  let t3 := pyStrip (subSuffix tail373 t2)
  let t4 := pyStrip (sub375 t3)
  let t5 := collapseWs t4
  pyStrip (sub378 t5)

/-- The record assembly of one minutes item (lines 297-413) from its gathered
line block. -/
def buildMinutesItem (roster : List (List Char)) (num : List Char)
    (item_lines : List (List Char)) : MinutesItem :=
  let st := procItemLines true item_lines initItemState
  let st2 :=
    if st.found_vote then st
    else
      let combined := combinedOf item_lines
      match searchResultTally combined with
      | some (kw, t) =>
        { st with vote_result := some (pyCapitalize kw), vote_tally := some t }
      | none =>
        if sectionPfx num = lit "9" then
          match searchColonTally combined with
          | some t => { st with vote_result := some (lit "Approved"), vote_tally := some t }
          | none => st
        else st
  let title := cleanMinutesTitle st2.title_parts
  let vote_detail := joinWithSpace st2.vote_detail_parts
  { item_number := num
    title := if title.isEmpty then none else some title
    file_number := st2.file_number
    result := st2.vote_result.map lowerStr
    vote_tally := st2.vote_tally
    votes := assembleVotes st2.vote_result st2.vote_tally vote_detail roster
    vote_detail := if vote_detail.isEmpty then none else some vote_detail }

/-- The result of one outer iteration of the minutes scan. -/
structure MuStep where
  curSec : Option Nat
  item : Option MinutesItem
  rest : List (List Char)
deriving DecidableEq

/-- One outer iteration of the minutes `while i < len(lines)` loop
(lines 237-416), acting on the head line and the remaining lines. -/
def minutesStep (curSec : Option Nat) (roster : List (List Char)) (l : List Char)
    (rest : List (List Char)) : MuStep :=
  match muSectionMatch l rest with
  | some n => ⟨some n, none, rest⟩
  | none =>
    match matchItemRe l with
    | none => ⟨curSec, none, rest⟩
    | some num =>
      if !(minutesSecs.contains (sectionPfx num)) then ⟨curSec, none, rest⟩
      else
        let (xs, rem) := gatherItemLines rest
        ⟨curSec, some (buildMinutesItem roster num (l :: xs)), rem⟩

theorem minutesStep_rest_le (curSec : Option Nat) (roster : List (List Char))
    (l : List Char) (rest : List (List Char)) :
    (minutesStep curSec roster l rest).rest.length ≤ rest.length := by
  unfold minutesStep
  split
  · simp
  · split
    · simp
    · split
      · simp
      · have := gatherItemLines_length_le rest
        dsimp only
        omega

/-- The minutes scan over a line sequence: emitted items in order. -/
def minutesLoopF (roster : List (List Char)) :
    Nat → Option Nat → List (List Char) → List MinutesItem
  | _, _, [] => []
  | 0, _, _ :: _ => []
  | fuel + 1, curSec, l :: rest =>
    let st := minutesStep curSec roster l rest
    (match st.item with | some it => [it] | none => []) ++
      minutesLoopF roster fuel st.curSec st.rest

/-- The minutes item scan (`parse_minutes` restricted to its line-scanning
loop): the `items` list produced from a line sequence and a roster. -/
def parse_minutes_items (roster : List (List Char)) (ls : List (List Char)) :
    List MinutesItem :=
  minutesLoopF roster ls.length none ls

/-! ## `parse_agenda.py`: the agenda scan -/

/-- An agenda item record. -/
structure AgendaItem where
  item_number : List Char
  title : List Char
  page_start : Option Nat
  page_end : Option Nat
  file_number : Option (List Char)
  item_type : List Char
deriving DecidableEq

/-- A section record. -/
structure Section where
  number : Nat
  title : List Char
  type : List Char
  items : List AgendaItem
deriving DecidableEq

/-- `f"{sec_num}."` : the prefix an item number must start with. -/
def secDotPrefixOf (n : Nat) : List Char := natToChars n ++ ['.']

/-- The stop conditions of the agenda title-gathering loops (checked on the
raw line; the file-number test runs on the stripped line).  The item-number
test breaks only when the candidate's prefix matches the open section; the
unranged branches phrase it as two separate checks with the same group, which
is equivalent because both patterns capture the same token. -/
def agStopLine (secNum : Nat) (l : List Char) : Bool :=
  (matchSectionHeader l).isSome ||
  (matchPatternA l).isSome || (matchPatternB l).isSome || (matchPatternC l).isSome ||
  fileNumAtStart (pyStrip l) ||
  (match
    (match matchItemWithTitle l with
     | some (n, _) => some n
     | none => matchItemAlone l) with
   | some n => (secDotPrefixOf secNum).isPrefixOf n
   | none => false)

/-- The title-gathering loop shared by all agenda item branches: skip blanks,
stop on `agStopLine`, otherwise absorb the stripped line.  Returns the
absorbed parts and the unconsumed remainder (the stop line included). -/
def gatherTitle (secNum : Nat) : List (List Char) → List (List Char) × List (List Char)
  | [] => ([], [])
  | l :: rest =>
    if (pyStrip l).isEmpty then gatherTitle secNum rest
    else if agStopLine secNum l then ([], l :: rest)
    else
      let (ps, rem) := gatherTitle secNum rest
      ((pyStrip l) :: ps, rem)

theorem gatherTitle_length_le (secNum : Nat) (ls : List (List Char)) :
    (gatherTitle secNum ls).2.length ≤ ls.length := by
  induction ls with
  | nil => simp [gatherTitle]
  | cons l rest ih =>
    simp only [gatherTitle]
    split
    · simp only [List.length_cons]; omega
    · split
      · simp
      · simp only [List.length_cons]; omega

/-- The file-number lookahead `for j in range(i, min(i + 3, len(lines)))`
(searching raw lines): on a hit, the normalized number and the 1-based offset
of the line after the hit. -/
def fileWindowAux : Nat → List (List Char) → Option (List Char × Nat)
  | 0, _ => none
  | _, [] => none
  | Nat.succ k, l :: rest =>
    match fileNumSearch l with
    | some fn => some (normFileNum fn, 1)
    | none =>
      match fileWindowAux k rest with
      | some (fn, j) => some (fn, j + 1)
      | none => none

/-- The file-number lookahead: the found number (if any) and the remainder of
the line sequence (`i = j + 1` on a hit, unchanged cursor otherwise). -/
def fileWindow (ls : List (List Char)) : Option (List Char) × List (List Char) :=
  match fileWindowAux 3 ls with
  | some (fn, j) => (some fn, ls.drop j)
  | none => (none, ls)

theorem fileWindowAux_le (k : Nat) (ls : List (List Char)) (fn : List Char) (j : Nat)
    (h : fileWindowAux k ls = some (fn, j)) : j ≤ ls.length := by
  induction k generalizing ls fn j with
  | zero => simp [fileWindowAux] at h
  | succ k ih =>
    cases ls with
    | nil => simp [fileWindowAux] at h
    | cons l rest =>
      simp only [fileWindowAux] at h
      split at h
      · simp only [Option.some_inj, Prod.mk.injEq] at h
        obtain ⟨h1, h2⟩ := h
        subst h2
        simp
      · split at h
        next fn0 j0 heq =>
          simp only [Option.some_inj, Prod.mk.injEq] at h
          obtain ⟨h1, h2⟩ := h
          subst h2
          have := ih rest fn0 j0 heq
          simp only [List.length_cons]
          omega
        next => cases h

theorem fileWindow_length_le (ls : List (List Char)) :
    (fileWindow ls).2.length ≤ ls.length := by
  unfold fileWindow
  split
  next fn j heq =>
    have := List.length_drop j ls
    dsimp only
    omega
  next => simp

/-- The agenda title normalization after a ranged item (lines 198-200 and the
copies in the other ranged branches): join, strip the trailing
`(Ord|Res). NN-NNN [-] Pdf` decoration, strip, collapse whitespace. -/
def rangedTitle (parts : List (List Char)) : List Char :=
  collapseWs (pyStrip (subSuffix tailAgendaPdf (joinWithSpace parts)))

/-- The agenda title normalization of the unranged branches (lines 409-410):
join, collapse whitespace, strip. -/
def plainTitle (parts : List (List Char)) : List Char :=
  pyStrip (collapseWs (joinWithSpace parts))

/-- Finish a ranged agenda item: gather the title, look ahead for a file
number, and build the record (the shared tail of the pattern A/B/C branches). -/
def finishRangedItem (secNum : Nat) (itype : List Char) (num : List Char) (a b : Nat)
    (seed : List (List Char)) (rest : List (List Char)) : AgendaItem × List (List Char) :=
  let (ps, rem) := gatherTitle secNum rest
  let (fn, rem2) := fileWindow rem
  (⟨num, rangedTitle (seed ++ ps), some a, some b, fn, itype⟩, rem2)

/-- Finish an unranged agenda item (no file-number lookahead, null pages). -/
def finishPlainItem (secNum : Nat) (itype : List Char) (num : List Char)
    (seed : List (List Char)) (rest : List (List Char)) : AgendaItem × List (List Char) :=
  let (ps, rem) := gatherTitle secNum rest
  (⟨num, plainTitle (seed ++ ps), none, none, none, itype⟩, rem)

theorem finishRangedItem_length_le (secNum : Nat) (itype num : List Char) (a b : Nat)
    (seed : List (List Char)) (rest : List (List Char)) :
    (finishRangedItem secNum itype num a b seed rest).2.length ≤ rest.length := by
  unfold finishRangedItem
  have h1 := gatherTitle_length_le secNum rest
  have h2 := fileWindow_length_le (gatherTitle secNum rest).2
  dsimp only
  omega

theorem finishPlainItem_length_le (secNum : Nat) (itype num : List Char)
    (seed : List (List Char)) (rest : List (List Char)) :
    (finishPlainItem secNum itype num seed rest).2.length ≤ rest.length := by
  unfold finishPlainItem
  have h1 := gatherTitle_length_le secNum rest
  dsimp only
  omega

/-- The result of one outer iteration of the agenda scan. -/
structure AgStep where
  emitted : List Section
  cur : Option Section
  rest : List (List Char)
deriving DecidableEq

/-- Append an item to the open section. -/
def addItem (sec : Section) (it : AgendaItem) : Section :=
  { sec with items := sec.items ++ [it] }

/-- Agenda branch: item number with inline title and no page range
(lines 423-461); falls through to `i += 1` when the pattern or the prefix
guard fails. -/
def agStepWithTitle (sec : Section) (l : List Char) (rest : List (List Char)) : AgStep :=
  match matchItemWithTitle l with
  | some (num, t) =>
    if (secDotPrefixOf sec.number).isPrefixOf num then
      let (it, rem) := finishPlainItem sec.number (item_type_from_section sec.type) num
        [pyStrip t] rest
      ⟨[], some (addItem sec it), rem⟩
    else ⟨[], some sec, rest⟩
  | none => ⟨[], some sec, rest⟩

/-- Agenda branch: item number alone on a line (lines 382-420); falls through
to the inline-title branch otherwise. -/
def agStepAlone (sec : Section) (l : List Char) (rest : List (List Char)) : AgStep :=
  match matchItemAlone l with
  | some num =>
    if (secDotPrefixOf sec.number).isPrefixOf num then
      let (it, rem) := finishPlainItem sec.number (item_type_from_section sec.type) num [] rest
      ⟨[], some (addItem sec it), rem⟩
    else agStepWithTitle sec l rest
  | none => agStepWithTitle sec l rest

/-- Agenda branch: page range alone on a line (lines 275-377).  After the
range, blanks are skipped and the next line must be an item number (alone or
with inline title) with a matching prefix; otherwise the range is abandoned
and — since a `pattern_c` line can never match the later item patterns — the
scan resumes after the offending line (`i = j + 1` through the trailing
`i += 1`). -/
def agStepC (sec : Section) (l : List Char) (rest : List (List Char)) : AgStep :=
  match matchPatternC l with
  | some (a, b) =>
    match dropBlanks rest with
    | [] => ⟨[], some sec, []⟩
    | nl :: rem1 =>
      match matchItemAlone nl with
      | some num =>
        if (secDotPrefixOf sec.number).isPrefixOf num then
          let (it, rem) := finishRangedItem sec.number (item_type_from_section sec.type) num
            a b [] rem1
          ⟨[], some (addItem sec it), rem⟩
        else
          match matchItemWithTitle nl with
          | some (num2, t) =>
            if (secDotPrefixOf sec.number).isPrefixOf num2 then
              let (it, rem) := finishRangedItem sec.number (item_type_from_section sec.type)
                num2 a b [pyStrip t] rem1
              ⟨[], some (addItem sec it), rem⟩
            else ⟨[], some sec, rem1⟩
          | none => ⟨[], some sec, rem1⟩
      | none =>
        match matchItemWithTitle nl with
        | some (num2, t) =>
          if (secDotPrefixOf sec.number).isPrefixOf num2 then
            let (it, rem) := finishRangedItem sec.number (item_type_from_section sec.type)
              num2 a b [pyStrip t] rem1
            ⟨[], some (addItem sec it), rem⟩
          else ⟨[], some sec, rem1⟩
        | none => ⟨[], some sec, rem1⟩
  | none => agStepAlone sec l rest

/-- Agenda branch: page range and item number on one line, title on following
lines (lines 223-272); falls through to the `pattern_c` branch otherwise. -/
def agStepB (sec : Section) (l : List Char) (rest : List (List Char)) : AgStep :=
  match matchPatternB l with
  | some (a, b, num) =>
    if (secDotPrefixOf sec.number).isPrefixOf num then
      let (it, rem) := finishRangedItem sec.number (item_type_from_section sec.type) num
        a b [] rest
      ⟨[], some (addItem sec it), rem⟩
    else agStepC sec l rest
  | none => agStepC sec l rest

/-- Agenda branch: page range, item number and inline title on one line
(lines 169-220); falls through to the `pattern_b` branch otherwise. -/
def agStepA (sec : Section) (l : List Char) (rest : List (List Char)) : AgStep :=
  match matchPatternA l with
  | some (a, b, num, inline) =>
    if (secDotPrefixOf sec.number).isPrefixOf num then
      let (it, rem) := finishRangedItem sec.number (item_type_from_section sec.type) num
        a b [pyStrip inline] rest
      ⟨[], some (addItem sec it), rem⟩
    else agStepB sec l rest
  | none => agStepB sec l rest

/-- One outer iteration of the agenda `while i < len(lines)` loop
(lines 135-463): section headers first (closing the open section), then —
only with an open section — the item branches. -/
def agendaStep (cur : Option Section) (l : List Char) (rest : List (List Char)) : AgStep :=
  match matchSectionHeader l with
  | some (n, rawTitle) =>
    let t := rstripSet [' ', '-', ','] (collapseWs (pyStrip rawTitle))
    ⟨cur.toList, some ⟨n, t, classify_section n t, []⟩, rest⟩
  | none =>
    match cur with
    | none => ⟨[], none, rest⟩
    | some sec => agStepA sec l rest

theorem agStepWithTitle_rest_le (sec : Section) (l : List Char) (rest : List (List Char)) :
    (agStepWithTitle sec l rest).rest.length ≤ rest.length := by
  unfold agStepWithTitle
  split
  · split
    · dsimp only
      exact finishPlainItem_length_le _ _ _ _ _
    · simp
  · simp

theorem agStepAlone_rest_le (sec : Section) (l : List Char) (rest : List (List Char)) :
    (agStepAlone sec l rest).rest.length ≤ rest.length := by
  unfold agStepAlone
  split
  · split
    · dsimp only
      exact finishPlainItem_length_le _ _ _ _ _
    · exact agStepWithTitle_rest_le sec l rest
  · exact agStepWithTitle_rest_le sec l rest

theorem dropBlanks_length_le (ls : List (List Char)) :
    (dropBlanks ls).length ≤ ls.length := lenDropWhileLe _ _

theorem agStepC_rest_le (sec : Section) (l : List Char) (rest : List (List Char)) :
    (agStepC sec l rest).rest.length ≤ rest.length := by
  unfold agStepC
  split
  · split
    next hblank => simp
    next nl rem1 hblank =>
      have hrem1 : rem1.length + 1 ≤ rest.length := by
        have h1 := dropBlanks_length_le rest
        rw [hblank] at h1
        simpa using h1
      split
      · split
        · dsimp only
          refine le_trans (finishRangedItem_length_le _ _ _ _ _ _ _) ?_
          omega
        · split
          · split
            · dsimp only
              refine le_trans (finishRangedItem_length_le _ _ _ _ _ _ _) ?_
              omega
            · simp; omega
          · simp; omega
      · split
        · split
          · dsimp only
            refine le_trans (finishRangedItem_length_le _ _ _ _ _ _ _) ?_
            omega
          · simp; omega
        · simp; omega
  · exact agStepAlone_rest_le sec l rest

theorem agStepB_rest_le (sec : Section) (l : List Char) (rest : List (List Char)) :
    (agStepB sec l rest).rest.length ≤ rest.length := by
  unfold agStepB
  split
  · split
    · dsimp only
      exact finishRangedItem_length_le _ _ _ _ _ _ _
    · exact agStepC_rest_le sec l rest
  · exact agStepC_rest_le sec l rest

theorem agStepA_rest_le (sec : Section) (l : List Char) (rest : List (List Char)) :
    (agStepA sec l rest).rest.length ≤ rest.length := by
  unfold agStepA
  split
  · split
    · dsimp only
      exact finishRangedItem_length_le _ _ _ _ _ _ _
    · exact agStepB_rest_le sec l rest
  · exact agStepB_rest_le sec l rest

theorem agendaStep_rest_le (cur : Option Section) (l : List Char) (rest : List (List Char)) :
    (agendaStep cur l rest).rest.length ≤ rest.length := by
  unfold agendaStep
  split
  · simp
  · split
    · simp
    · exact agStepA_rest_le _ l rest

/-- The agenda scan over a line sequence: the finished sections in order (the
open section is closed when the input ends). -/
def agendaLoopF : Nat → Option Section → List Section → List (List Char) → List Section
  | _, cur, acc, [] => acc ++ cur.toList
  | 0, cur, acc, _ :: _ => acc ++ cur.toList
  | fuel + 1, cur, acc, l :: rest =>
    let st := agendaStep cur l rest
    agendaLoopF fuel st.cur (acc ++ st.emitted) st.rest

/-- The agenda section scan (`parse_agenda` restricted to its line-scanning
loop): the `sections` list produced from a line sequence. -/
def parse_agenda_sections (ls : List (List Char)) : List Section :=
  agendaLoopF ls.length none [] ls

/-! ## `split_packet.py`: the per-item extraction loop -/

/-- `sanitize_filename(s)`: `\.\s*` → `-`, `\s+` → `-`, drop non-word
characters, collapse dashes, strip dashes. -/
def subDotWsF : Nat → List Char → List Char
  | _, [] => []
  | 0, s => s
  | fuel + 1, c :: r =>
    if c = '.' then '-' :: subDotWsF fuel (r.dropWhile pyIsSpace)
    else c :: subDotWsF fuel r

def subDotWs (s : List Char) : List Char := subDotWsF s.length s

/-- `re.sub(r'\s+', '-', s)`. -/
def collapseWsDashF : Nat → List Char → List Char
  | _, [] => []
  | 0, s => s
  | fuel + 1, c :: rest =>
    if pyIsSpace c then '-' :: collapseWsDashF fuel (rest.dropWhile pyIsSpace)
    else c :: collapseWsDashF fuel rest

def collapseWsDash (s : List Char) : List Char := collapseWsDashF s.length s

/-- `re.sub(r'-+', '-', s)`. -/
def collapseDashesF : Nat → List Char → List Char
  | _, [] => []
  | 0, s => s
  | fuel + 1, c :: rest =>
    if c = '-' then '-' :: collapseDashesF fuel (rest.dropWhile (fun x => x = '-'))
    else c :: collapseDashesF fuel rest

def collapseDashes (s : List Char) : List Char := collapseDashesF s.length s

/-- `\w` : `[A-Za-z0-9_]` on the ASCII text that occurs here. -/
def isWordCh (c : Char) : Bool := isAlphaCh c || isDigitCh c || c = '_'

/-- `sanitize_filename` (split_packet lines 27-35). -/
def sanitize_filename (s : List Char) : List Char :=
  stripCh '-' (collapseDashes ((collapseWsDash (subDotWs s)).filter
    (fun c => isWordCh c || c = '-')))

/-- An agenda item as consumed by the splitter (collected only from items
whose `page_start`/`page_end` are non-null, so the pages are plain ints
here). -/
structure SplitItem where
  item_number : List Char
  title : List Char
  item_type : List Char
  file_number : Option (List Char)
  page_start : Int
  page_end : Int
deriving DecidableEq

/-- `{:02d}` formatting. -/
def pad2 (n : Nat) : List Char :=
  if n < 10 then '0' :: natToChars n else natToChars n

/-- `build_filename(item)` (lines 38-51); `none` models the exception Python
would raise on an item number without two int-parsable dot-chunks. -/
def build_filename (it : SplitItem) : Option (List Char) :=
  match splitOnCh '.' it.item_number with
  | p0 :: p1 :: _ => do
    let a ← pyIntNat p0
    let b ← pyIntNat p1
    let padded := pad2 a ++ '.' :: pad2 b
    match it.file_number with
    | some fn =>
      if !fn.isEmpty then
        pure (padded ++ '_' :: it.item_type ++ '_' :: sanitize_filename fn ++ lit ".pdf")
      else pure (padded ++ '_' :: it.item_type ++ lit ".pdf")
    | none => pure (padded ++ '_' :: it.item_type ++ lit ".pdf")
  | _ => none

/-- `SECTION_DIR_MAP.get(section_type, "other")` via `subdir_for_item`
(the `item` argument is unused by the source function). -/
def subdir_for_item (item : SplitItem) (section_type : List Char) : List Char :=
  let _ := item
  if section_type = lit "ordinance_first_reading" then lit "ordinances"
  else if section_type = lit "ordinance_second_reading" then lit "ordinances"
  else if section_type = lit "resolutions" then lit "resolutions"
  else if section_type = lit "claims" then lit "claims"
  else lit "other"

/-- `validate_split(packet_doc, item, page_start_0, page_end_0)` (lines
59-79): look for the space-stripped file number in the first (at most three)
pages of the 0-indexed range.  The packet is its list of page texts; the
caller has bounds-checked the range, so plain `getD` indexing is exact. -/
def validate_split (packet : List (List Char)) (it : SplitItem)
    (start0 end0 : Int) : Bool :=
  match it.file_number with
  | none => true
  | some fn =>
    if fn.isEmpty then true
    else
      let norm := fn.filter (fun c => c != ' ')
      let cnt := (min (end0 + 1) (start0 + 3) - start0).toNat
      (List.range cnt).any fun k =>
        containsSub norm ((packet.getD (start0 + k).toNat []).filter (fun c => c != ' '))

/-- The growing output of the splitter loop. -/
structure ManifestEntry where
  item_number : List Char
  title : List Char
  item_type : List Char
  file_number : Option (List Char)
  page_start : Int
  page_end : Int
  page_count : Int
  output_file : List Char
deriving DecidableEq

/-- The accumulated state of the splitter loop: manifest entries, warning
messages, written output files (relative paths) and the page total. -/
structure SplitState where
  manifest : List ManifestEntry
  warnings : List (List Char)
  outputs : List (List Char)
  total_pages_split : Int
deriving DecidableEq

/-- The out-of-bounds warning message (line 147). -/
def oobMsg (it : SplitItem) (total : Nat) : List Char :=
  lit "WARNING: Item " ++ it.item_number ++ lit " pages " ++ intToChars it.page_start ++
    '-' :: intToChars it.page_end ++ lit " out of bounds (packet has " ++
    natToChars total ++ lit " pages)"

/-- The failed-validation warning message (line 154).  Python renders a
missing file number as the text `None`, but `validate_split` only fails with a
non-empty file number present. -/
def valMsg (it : SplitItem) : List Char :=
  lit "WARNING: Item " ++ it.item_number ++ lit " - file number '" ++
    (match it.file_number with | some fn => fn | none => lit "None") ++
    lit "' not found in pages " ++ intToChars it.page_start ++ '-' ::
    intToChars it.page_end

/-- The per-item loop of `split_packet` (lines 137-183) over the sorted
`items_to_split` list: bounds check (warn and skip), content validation
(warn and keep going), then the extraction (modelled as recording the output
path), page-count bookkeeping and the manifest entry.  `none` models the
exception `build_filename` would raise. -/
def split_items (packet : List (List Char)) (total : Nat) :
    List (SplitItem × List Char) → SplitState → Option SplitState
  | [], st => some st
  | (it, secType) :: rest, st =>
    let start0 := it.page_start - 1
    let end0 := it.page_end - 1
    if start0 < 0 ∨ end0 ≥ (total : Int) then
      split_items packet total rest
        { st with warnings := st.warnings ++ [oobMsg it total] }
    else
      let st1 :=
        if !validate_split packet it start0 end0 then
          { st with warnings := st.warnings ++ [valMsg it] }
        else st
      match build_filename it with
      | none => none
      | some fname =>
        let rel := subdir_for_item it secType ++ '/' :: fname
        let cnt := end0 - start0 + 1
        split_items packet total rest
          { st1 with
            outputs := st1.outputs ++ [rel]
            total_pages_split := st1.total_pages_split + cnt
            manifest := st1.manifest ++
              [⟨it.item_number, it.title, it.item_type, it.file_number,
                it.page_start, it.page_end, cnt, rel⟩] }

theorem charLe_toNat {a b : Char} (h : a ≤ b) : a.toNat ≤ b.toNat := by
  rw [Char.le_def] at h; exact h

theorem digit_not_space (c : Char) (h : isDigitCh c = true) : pyIsSpace c = false := by
  simp only [isDigitCh, Bool.and_eq_true, decide_eq_true_eq] at h
  obtain ⟨h1, h2⟩ := h
  have hn1 := charLe_toNat h1
  by_contra hne
  have hws : pyIsSpace c = true := by
    cases hx : pyIsSpace c
    · exact absurd hx hne
    · rfl
  simp only [pyIsSpace, Bool.or_eq_true, decide_eq_true_eq] at hws
  rcases hws with ((((hc | hc) | hc) | hc) | hc) | hc <;> subst hc <;> simp_all

theorem digit_ne_dash (c : Char) (h : isDigitCh c = true) : c ≠ '-' := by
  intro he; subst he; simp [isDigitCh] at h

theorem pyStrip_eq_self (s : List Char) (h : ∀ c ∈ s, pyIsSpace c = false) :
    pyStrip s = s := by
  unfold pyStrip lstripWs rstripWs
  have h1 : s.dropWhile pyIsSpace = s := by
    cases s with
    | nil => rfl
    | cons c r =>
      rw [List.dropWhile_cons_of_neg]
      simp [h c (by simp)]
  rw [h1]
  cases hrev : s.reverse with
  | nil => simp_all
  | cons c t =>
    have hc : c ∈ s := by
      have : c ∈ s.reverse := by rw [hrev]; simp
      exact List.mem_reverse.mp this
    rw [List.dropWhile_cons_of_neg (by simp [h c hc])]
    rw [← hrev, List.reverse_reverse]

theorem splitOnCh_ne_nil (sep : Char) (s : List Char) : splitOnCh sep s ≠ [] := by
  cases s with
  | nil => simp [splitOnCh]
  | cons c rest =>
    simp only [splitOnCh]
    split
    · simp
    · split <;> simp

theorem splitOnCh_no_sep (sep : Char) (d : List Char) (h : ∀ c ∈ d, c ≠ sep) :
    splitOnCh sep d = [d] := by
  induction d with
  | nil => rfl
  | cons c r ih =>
    simp only [splitOnCh]
    rw [if_neg (h c (by simp))]
    rw [ih (fun x hx => h x (by simp [hx]))]

theorem splitOnCh_append (sep : Char) (d rest : List Char) (h : ∀ c ∈ d, c ≠ sep) :
    splitOnCh sep (d ++ sep :: rest) = d :: splitOnCh sep rest := by
  induction d with
  | nil => simp [splitOnCh]
  | cons c r ih =>
    simp only [List.cons_append, splitOnCh, List.append_eq]
    rw [if_neg (h c (by simp))]
    rw [ih (fun x hx => h x (by simp [hx]))]

theorem pyIntNat_digits (d : List Char) (hne : d ≠ []) (hd : ∀ c ∈ d, isDigitCh c = true) :
    pyIntNat d = some (digitsVal d) := by
  unfold pyIntNat
  rw [pyStrip_eq_self d (fun c hc => digit_not_space c (hd c hc))]
  have hcond : (!d.isEmpty && d.all isDigitCh) = true := by
    simp only [Bool.and_eq_true, Bool.not_eq_true']
    constructor
    · cases d
      · exact absurd rfl hne
      · rfl
    · exact List.all_eq_true.mpr hd
  rw [if_pos hcond]

theorem digitVal_le (c : Char) (h : isDigitCh c = true) : digitVal c ≤ 9 := by
  simp only [isDigitCh, Bool.and_eq_true, decide_eq_true_eq] at h
  have h2 := charLe_toNat h.2
  have h9 : ('9' : Char).toNat = 57 := rfl
  have h0 : ('0' : Char).toNat = 48 := rfl
  unfold digitVal
  omega

theorem digitsVal_foldl_lt (ds : List Char) (hd : ∀ c ∈ ds, isDigitCh c = true) :
    ∀ acc : Nat, List.foldl (fun a c => a * 10 + digitVal c) acc ds < (acc + 1) * 10 ^ ds.length := by
  induction ds with
  | nil => intro acc; simp
  | cons c ds ih =>
    intro acc
    have hv := digitVal_le c (hd c (by simp))
    have ih2 := ih (fun x hx => hd x (by simp [hx])) (acc * 10 + digitVal c)
    simp only [List.foldl_cons, List.length_cons]
    refine lt_of_lt_of_le ih2 ?_
    have hmul : acc * 10 + digitVal c + 1 ≤ (acc + 1) * 10 := by omega
    calc (acc * 10 + digitVal c + 1) * 10 ^ ds.length
        ≤ ((acc + 1) * 10) * 10 ^ ds.length := Nat.mul_le_mul_right _ hmul
      _ = (acc + 1) * 10 ^ (ds.length + 1) := by ring

theorem digitsVal_le_999 (ds : List Char) (hd : ∀ c ∈ ds, isDigitCh c = true)
    (hlen : ds.length ≤ 3) : digitsVal ds ≤ 999 := by
  have h := digitsVal_foldl_lt ds hd 0
  have hpow : (10 : Nat) ^ ds.length ≤ 10 ^ 3 :=
    Nat.pow_le_pow_right (by omega) hlen
  unfold digitsVal
  omega

theorem digitRun_inv (lo hi : Nat) (s d r : List Char) (h : digitRun lo hi s = some (d, r)) :
    (∀ c ∈ d, isDigitCh c = true) ∧ lo ≤ d.length ∧ d.length ≤ hi := by
  simp only [digitRun] at h
  split at h
  next hc =>
    simp only [Option.some_inj, Prod.mk.injEq] at h
    obtain ⟨hd, hr⟩ := h
    subst hd
    simp only [Bool.and_eq_true, decide_eq_true_eq] at hc
    exact ⟨fun c hc2 => List.mem_takeWhile_imp hc2, hc.1, hc.2⟩
  · cases h

theorem rangeTok_bounds (s : List Char) (a b : Nat) (r : List Char)
    (h : rangeTok s = some (a, b, r)) : a ≤ 999 ∧ b ≤ 999 := by
  simp only [rangeTok, Option.bind_eq_bind, Option.bind_eq_some] at h
  obtain ⟨⟨d1, s1⟩, h1, h⟩ := h
  obtain ⟨s2, h2, h⟩ := h
  obtain ⟨⟨d2, s3⟩, h3, h⟩ := h
  simp only [Option.some_inj, Prod.mk.injEq] at h
  obtain ⟨ha, hb, hr⟩ := h
  obtain ⟨hd1, _, hl1⟩ := digitRun_inv 1 3 _ _ _ h1
  obtain ⟨hd2, _, hl2⟩ := digitRun_inv 1 3 _ _ _ h3
  subst ha hb
  exact ⟨digitsVal_le_999 d1 hd1 hl1, digitsVal_le_999 d2 hd2 hl2⟩

theorem minutesStep_item_pfx (curSec : Option Nat) (roster : List (List Char))
    (l : List Char) (rest : List (List Char)) (it : MinutesItem)
    (h : (minutesStep curSec roster l rest).item = some it) :
    minutesSecs.contains (sectionPfx it.item_number) = true := by
  unfold minutesStep at h
  split at h
  · simp at h
  · split at h
    · simp at h
    next num hnum =>
      split at h
      · simp at h
      next hguard =>
        dsimp only at h
        simp only [Option.some_inj] at h
        subst h
        simp only [Bool.not_eq_true'] at hguard
        simpa [buildMinutesItem] using hguard

theorem minutesLoopF_pfx (roster : List (List Char)) :
    ∀ (fuel : Nat) (curSec : Option Nat) (ls : List (List Char)) (it : MinutesItem),
      it ∈ minutesLoopF roster fuel curSec ls →
      minutesSecs.contains (sectionPfx it.item_number) = true := by
  intro fuel
  induction fuel with
  | zero =>
    intro curSec ls it h
    cases ls <;> simp [minutesLoopF] at h
  | succ n ih =>
    intro curSec ls it h
    cases ls with
    | nil => simp [minutesLoopF] at h
    | cons l rest =>
      simp only [minutesLoopF] at h
      rw [List.mem_append] at h
      rcases h with h | h
      · cases hstep : (minutesStep curSec roster l rest).item with
        | none => rw [hstep] at h; simp at h
        | some it0 =>
          rw [hstep] at h
          simp only [List.mem_singleton] at h
          subst h
          exact minutesStep_item_pfx _ _ _ _ _ hstep
      · exact ih _ _ _ h

/-- The prefix invariant of one section: every item's number starts with the
section's own number followed by a dot. -/
def SecOK (s : Section) : Prop :=
  ∀ it ∈ s.items, (secDotPrefixOf s.number).isPrefixOf it.item_number = true

theorem addItem_ok (sec : Section) (it : AgendaItem) (hs : SecOK sec)
    (hit : (secDotPrefixOf sec.number).isPrefixOf it.item_number = true) :
    SecOK (addItem sec it) := by
  intro x hx
  unfold addItem at hx ⊢
  dsimp only at hx ⊢
  rw [List.mem_append] at hx
  rcases hx with hx | hx
  · exact hs x hx
  · simp only [List.mem_singleton] at hx
    subst hx
    exact hit

theorem finishPlainItem_num (secNum : Nat) (itype num : List Char)
    (seed : List (List Char)) (rest : List (List Char)) :
    (finishPlainItem secNum itype num seed rest).1.item_number = num := rfl

theorem finishRangedItem_num (secNum : Nat) (itype num : List Char) (a b : Nat)
    (seed : List (List Char)) (rest : List (List Char)) :
    (finishRangedItem secNum itype num a b seed rest).1.item_number = num := rfl

theorem agStepWithTitle_inv (sec : Section) (l : List Char) (rest : List (List Char))
    (hs : SecOK sec) :
    (agStepWithTitle sec l rest).emitted = [] ∧
    ∀ s', (agStepWithTitle sec l rest).cur = some s' → SecOK s' := by
  unfold agStepWithTitle
  split
  next num t heq =>
    split
    next hpre =>
      dsimp only
      refine ⟨rfl, ?_⟩
      intro s' hs'
      simp only [Option.some_inj] at hs'
      subst hs'
      exact addItem_ok sec _ hs (by rw [finishPlainItem_num]; exact hpre)
    next =>
      exact ⟨rfl, by intro s' hs'; simp only [Option.some_inj] at hs'; subst hs'; exact hs⟩
  next =>
    exact ⟨rfl, by intro s' hs'; simp only [Option.some_inj] at hs'; subst hs'; exact hs⟩

theorem agStepAlone_inv (sec : Section) (l : List Char) (rest : List (List Char))
    (hs : SecOK sec) :
    (agStepAlone sec l rest).emitted = [] ∧
    ∀ s', (agStepAlone sec l rest).cur = some s' → SecOK s' := by
  unfold agStepAlone
  split
  next num heq =>
    split
    next hpre =>
      dsimp only
      refine ⟨rfl, ?_⟩
      intro s' hs'
      simp only [Option.some_inj] at hs'
      subst hs'
      exact addItem_ok sec _ hs (by rw [finishPlainItem_num]; exact hpre)
    next => exact agStepWithTitle_inv sec l rest hs
  next => exact agStepWithTitle_inv sec l rest hs

theorem agStepC_inv (sec : Section) (l : List Char) (rest : List (List Char))
    (hs : SecOK sec) :
    (agStepC sec l rest).emitted = [] ∧
    ∀ s', (agStepC sec l rest).cur = some s' → SecOK s' := by
  unfold agStepC
  split
  next ab heq =>
    split
    next =>
      exact ⟨rfl, by intro s' hs'; simp only [Option.some_inj] at hs'; subst hs'; exact hs⟩
    next nl rem1 hblank =>
      split
      next num heq2 =>
        split
        next hpre =>
          dsimp only
          refine ⟨rfl, ?_⟩
          intro s' hs'
          simp only [Option.some_inj] at hs'
          subst hs'
          exact addItem_ok sec _ hs (by rw [finishRangedItem_num]; exact hpre)
        next =>
          split
          next num2 t heq3 =>
            split
            next hpre2 =>
              dsimp only
              refine ⟨rfl, ?_⟩
              intro s' hs'
              simp only [Option.some_inj] at hs'
              subst hs'
              exact addItem_ok sec _ hs (by rw [finishRangedItem_num]; exact hpre2)
            next =>
              exact ⟨rfl, by
                intro s' hs'; simp only [Option.some_inj] at hs'; subst hs'; exact hs⟩
          next =>
            exact ⟨rfl, by
              intro s' hs'; simp only [Option.some_inj] at hs'; subst hs'; exact hs⟩
      next =>
        split
        next num2 t heq3 =>
          split
          next hpre2 =>
            dsimp only
            refine ⟨rfl, ?_⟩
            intro s' hs'
            simp only [Option.some_inj] at hs'
            subst hs'
            exact addItem_ok sec _ hs (by rw [finishRangedItem_num]; exact hpre2)
          next =>
            exact ⟨rfl, by
              intro s' hs'; simp only [Option.some_inj] at hs'; subst hs'; exact hs⟩
        next =>
          exact ⟨rfl, by
            intro s' hs'; simp only [Option.some_inj] at hs'; subst hs'; exact hs⟩
  next => exact agStepAlone_inv sec l rest hs

theorem agStepB_inv (sec : Section) (l : List Char) (rest : List (List Char))
    (hs : SecOK sec) :
    (agStepB sec l rest).emitted = [] ∧
    ∀ s', (agStepB sec l rest).cur = some s' → SecOK s' := by
  unfold agStepB
  split
  next abn heq =>
    split
    next hpre =>
      dsimp only
      refine ⟨rfl, ?_⟩
      intro s' hs'
      simp only [Option.some_inj] at hs'
      subst hs'
      exact addItem_ok sec _ hs (by rw [finishRangedItem_num]; exact hpre)
    next => exact agStepC_inv sec l rest hs
  next => exact agStepC_inv sec l rest hs

theorem agStepA_inv (sec : Section) (l : List Char) (rest : List (List Char))
    (hs : SecOK sec) :
    (agStepA sec l rest).emitted = [] ∧
    ∀ s', (agStepA sec l rest).cur = some s' → SecOK s' := by
  unfold agStepA
  split
  next abn heq =>
    split
    next hpre =>
      dsimp only
      refine ⟨rfl, ?_⟩
      intro s' hs'
      simp only [Option.some_inj] at hs'
      subst hs'
      exact addItem_ok sec _ hs (by rw [finishRangedItem_num]; exact hpre)
    next => exact agStepB_inv sec l rest hs
  next => exact agStepB_inv sec l rest hs

theorem agendaStep_inv (cur : Option Section) (l : List Char) (rest : List (List Char))
    (hc : ∀ s, cur = some s → SecOK s) :
    (∀ s ∈ (agendaStep cur l rest).emitted, SecOK s) ∧
    (∀ s', (agendaStep cur l rest).cur = some s' → SecOK s') := by
  unfold agendaStep
  split
  next n rawTitle heq =>
    dsimp only
    constructor
    · intro s hsm
      cases cur with
      | none => simp at hsm
      | some c0 =>
        simp only [Option.toList_some, List.mem_singleton] at hsm
        subst hsm
        exact hc _ rfl
    · intro s' hs'
      simp only [Option.some_inj] at hs'
      subst hs'
      intro it hit
      simp at hit
  next =>
    split
    next => exact ⟨by simp, by simp⟩
    next sec =>
      have h := agStepA_inv sec l rest (hc sec rfl)
      refine ⟨?_, h.2⟩
      rw [h.1]
      simp

theorem agendaLoopF_inv :
    ∀ (fuel : Nat) (cur : Option Section) (acc : List Section) (ls : List (List Char)),
      (∀ s ∈ acc, SecOK s) → (∀ s, cur = some s → SecOK s) →
      ∀ s ∈ agendaLoopF fuel cur acc ls, SecOK s := by
  intro fuel
  induction fuel with
  | zero =>
    intro cur acc ls hacc hcur s hs
    cases ls <;>
      (simp only [agendaLoopF] at hs
       rw [List.mem_append] at hs
       rcases hs with hs | hs
       · exact hacc s hs
       · cases cur with
         | none => simp at hs
         | some c0 =>
           simp only [Option.toList_some, List.mem_singleton] at hs
           subst hs
           exact hcur _ rfl)
  | succ n ih =>
    intro cur acc ls hacc hcur s hs
    cases ls with
    | nil =>
      simp only [agendaLoopF] at hs
      rw [List.mem_append] at hs
      rcases hs with hs | hs
      · exact hacc s hs
      · cases cur with
        | none => simp at hs
        | some c0 =>
          simp only [Option.toList_some, List.mem_singleton] at hs
          subst hs
          exact hcur _ rfl
    | cons l rest =>
      simp only [agendaLoopF] at hs
      have hstep := agendaStep_inv cur l rest hcur
      refine ih _ _ _ ?_ hstep.2 s hs
      intro x hx
      rw [List.mem_append] at hx
      rcases hx with hx | hx
      · exact hacc x hx
      · exact hstep.1 x hx

theorem length_filter_split {α : Type} (l : List α) (p : α → Bool) :
    (l.filter p).length + (l.filter (fun x => !(p x))).length = l.length := by
  induction l with
  | nil => simp
  | cons a rest ih =>
    by_cases h : p a = true
    · simp [List.filter_cons, h]; omega
    · simp only [Bool.not_eq_true] at h
      simp [List.filter_cons, h]
      omega

theorem filter_mem_length (roster L : List (List Char)) (hr : roster.Nodup)
    (hL : L.Nodup) (hsub : ∀ x ∈ L, x ∈ roster) :
    (roster.filter (fun m => decide (m ∈ L))).length = L.length := by
  induction roster generalizing L with
  | nil =>
    have : L = [] := List.eq_nil_iff_forall_not_mem.mpr (fun x hx => by simp at *; exact hsub x hx)
    subst this
    simp
  | cons a rs ih =>
    have hr2 : rs.Nodup := hr.of_cons
    have hanotin : a ∉ rs := by
      have := List.nodup_cons.mp hr
      exact this.1
    by_cases hmem : a ∈ L
    · have heq : rs.filter (fun m => decide (m ∈ L)) =
          rs.filter (fun m => decide (m ∈ L.erase a)) := by
        apply List.filter_congr
        intro x hx
        have hxa : x ≠ a := fun he => hanotin (he ▸ hx)
        simp only [decide_eq_decide]
        exact (List.mem_erase_of_ne hxa).symm
      rw [List.filter_cons]
      have hcond : (decide (a ∈ L)) = true := by simp [hmem]
      rw [hcond, if_pos rfl, List.length_cons, heq,
        ih (L.erase a) hr2 (hL.erase a) ?_]
      · have := List.length_erase_of_mem hmem
        have hlen : 1 ≤ L.length := List.length_pos.mpr (fun he => by simp [he] at hmem)
        omega
      · intro x hx
        have hxa : x ≠ a := by
          intro he
          subst he
          exact (List.Nodup.not_mem_erase hL) hx
        have hxL : x ∈ L := List.mem_of_mem_erase hx
        have := hsub x hxL
        simp only [List.mem_cons] at this
        rcases this with h | h
        · exact absurd h hxa
        · exact h
    · rw [List.filter_cons]
      have hcond : (decide (a ∈ L)) = false := by simp [hmem]
      rw [hcond, if_neg (by simp)]
      rw [ih L hr2 hL ?_]
      intro x hx
      have := hsub x hx
      simp only [List.mem_cons] at this
      rcases this with h | h
      · subst h; exact absurd hx hmem
      · exact h

theorem filter_not_mem_length (roster L : List (List Char)) (hr : roster.Nodup)
    (hL : L.Nodup) (hsub : ∀ x ∈ L, x ∈ roster) :
    (roster.filter (fun m => decide (m ∉ L))).length = roster.length - L.length ∧
    L.length ≤ roster.length := by
  have h1 := length_filter_split roster (fun m => decide (m ∈ L))
  have h2 := filter_mem_length roster L hr hL hsub
  have h3 : roster.filter (fun m => decide (m ∉ L)) =
      roster.filter (fun x => !(decide (x ∈ L))) := by
    apply List.filter_congr
    intro x hx
    simp
  rw [h3]
  omega

theorem hasNay_not_hasAbstain (d : List Char) (h : detailHasNay d = true) :
    detailHasAbstain d = false := by
  unfold detailHasNay at h
  unfold detailHasAbstain
  rw [Bool.and_eq_true] at h
  simp [h.1, h.2]

/-- The consistency condition under which the tally counts agree with the
per-member assignment: the detail text names exactly the members the tally
counts as nay (or abstain), and the tally does not overfill the roster. -/
def tallyMatchesDetail (roster : List (List Char)) (ayes nays abst : Nat)
    (detail : List Char) : Prop :=
  (detailHasNay detail = true →
    nays = (extract_named_members detail roster).length ∧ abst = 0) ∧
  (detailHasNay detail = false → detailHasAbstain detail = true →
    abst = (extract_named_members detail roster).length ∧ nays = 0) ∧
  (detailHasNay detail = false → detailHasAbstain detail = false →
    nays = 0 ∧ abst = 0) ∧
  ayes + nays + abst ≤ roster.length

/-! ## Fuel adequacy

Every fuel-driven evaluator above consumes at least one character (or line)
per step, so any fuel of at least the input length — in particular the
`length` the wrappers pass — computes the same result: the fuel never cuts a
run short. -/

theorem collapseWsF_fuel :
    ∀ (f1 f2 : Nat) (s : List Char), s.length ≤ f1 → s.length ≤ f2 →
      collapseWsF f1 s = collapseWsF f2 s := by
  intro f1
  induction f1 with
  | zero =>
    intro f2 s h1 h2
    have hnil : s = [] := List.length_eq_zero.mp (Nat.le_zero.mp h1)
    subst hnil
    cases f2 <;> rfl
  | succ n ih =>
    intro f2 s h1 h2
    cases s with
    | nil => cases f2 <;> rfl
    | cons c rest =>
      cases f2 with
      | zero => simp at h2
      | succ m =>
        simp only [List.length_cons] at h1 h2
        have hd := lenDropWhileLe pyIsSpace rest
        simp only [collapseWsF]
        split
        · rw [ih m (rest.dropWhile pyIsSpace) (by omega) (by omega)]
        · rw [ih m rest (by omega) (by omega)]

theorem collapseWsDashF_fuel :
    ∀ (f1 f2 : Nat) (s : List Char), s.length ≤ f1 → s.length ≤ f2 →
      collapseWsDashF f1 s = collapseWsDashF f2 s := by
  intro f1
  induction f1 with
  | zero =>
    intro f2 s h1 h2
    have hnil : s = [] := List.length_eq_zero.mp (Nat.le_zero.mp h1)
    subst hnil
    cases f2 <;> rfl
  | succ n ih =>
    intro f2 s h1 h2
    cases s with
    | nil => cases f2 <;> rfl
    | cons c rest =>
      cases f2 with
      | zero => simp at h2
      | succ m =>
        simp only [List.length_cons] at h1 h2
        have hd := lenDropWhileLe pyIsSpace rest
        simp only [collapseWsDashF]
        split
        · rw [ih m (rest.dropWhile pyIsSpace) (by omega) (by omega)]
        · rw [ih m rest (by omega) (by omega)]

theorem collapseDashesF_fuel :
    ∀ (f1 f2 : Nat) (s : List Char), s.length ≤ f1 → s.length ≤ f2 →
      collapseDashesF f1 s = collapseDashesF f2 s := by
  intro f1
  induction f1 with
  | zero =>
    intro f2 s h1 h2
    have hnil : s = [] := List.length_eq_zero.mp (Nat.le_zero.mp h1)
    subst hnil
    cases f2 <;> rfl
  | succ n ih =>
    intro f2 s h1 h2
    cases s with
    | nil => cases f2 <;> rfl
    | cons c rest =>
      cases f2 with
      | zero => simp at h2
      | succ m =>
        simp only [List.length_cons] at h1 h2
        have hd := lenDropWhileLe (fun x => x = '-') rest
        simp only [collapseDashesF]
        split
        · rw [ih m (rest.dropWhile (fun x => x = '-')) (by omega) (by omega)]
        · rw [ih m rest (by omega) (by omega)]

theorem subDotWsF_fuel :
    ∀ (f1 f2 : Nat) (s : List Char), s.length ≤ f1 → s.length ≤ f2 →
      subDotWsF f1 s = subDotWsF f2 s := by
  intro f1
  induction f1 with
  | zero =>
    intro f2 s h1 h2
    have hnil : s = [] := List.length_eq_zero.mp (Nat.le_zero.mp h1)
    subst hnil
    cases f2 <;> rfl
  | succ n ih =>
    intro f2 s h1 h2
    cases s with
    | nil => cases f2 <;> rfl
    | cons c rest =>
      cases f2 with
      | zero => simp at h2
      | succ m =>
        simp only [List.length_cons] at h1 h2
        have hd := lenDropWhileLe pyIsSpace rest
        simp only [subDotWsF]
        split
        · rw [ih m (rest.dropWhile pyIsSpace) (by omega) (by omega)]
        · rw [ih m rest (by omega) (by omega)]

theorem normFileNumF_fuel :
    ∀ (f1 f2 : Nat) (s : List Char), s.length ≤ f1 → s.length ≤ f2 →
      normFileNumF f1 s = normFileNumF f2 s := by
  intro f1
  induction f1 with
  | zero =>
    intro f2 s h1 h2
    have hnil : s = [] := List.length_eq_zero.mp (Nat.le_zero.mp h1)
    subst hnil
    cases f2 <;> rfl
  | succ n ih =>
    intro f2 s h1 h2
    cases s with
    | nil => cases f2 <;> rfl
    | cons c rest =>
      cases f2 with
      | zero => simp at h2
      | succ m =>
        simp only [List.length_cons] at h1 h2
        have hd := lenDropWhileLe pyIsSpace ((c :: rest).drop 4)
        have hdr : ((c :: rest).drop 4).length = rest.length - 3 := by
          rw [List.length_drop]
          simp only [List.length_cons]
          omega
        simp only [normFileNumF]
        split
        · rw [ih m (((c :: rest).drop 4).dropWhile pyIsSpace) (by omega) (by omega)]
        · rw [ih m rest (by omega) (by omega)]

theorem sub375F_fuel :
    ∀ (f1 f2 : Nat) (s : List Char), s.length ≤ f1 → s.length ≤ f2 →
      sub375F f1 s = sub375F f2 s := by
  intro f1
  induction f1 with
  | zero =>
    intro f2 s h1 h2
    have hnil : s = [] := List.length_eq_zero.mp (Nat.le_zero.mp h1)
    subst hnil
    cases f2 <;> rfl
  | succ n ih =>
    intro f2 s h1 h2
    cases s with
    | nil => cases f2 <;> rfl
    | cons c rest =>
      cases f2 with
      | zero => simp at h2
      | succ m =>
        simp only [List.length_cons] at h1 h2
        simp only [sub375F]
        split
        next after heq =>
          have := fileRefAt_length_lt (c :: rest) after heq
          simp only [List.length_cons] at this
          rw [ih m after (by omega) (by omega)]
        next => rw [ih m rest (by omega) (by omega)]

theorem sub378F_fuel :
    ∀ (f1 f2 : Nat) (s : List Char), s.length ≤ f1 → s.length ≤ f2 →
      sub378F f1 s = sub378F f2 s := by
  intro f1
  induction f1 with
  | zero =>
    intro f2 s h1 h2
    have hnil : s = [] := List.length_eq_zero.mp (Nat.le_zero.mp h1)
    subst hnil
    cases f2 <;> rfl
  | succ n ih =>
    intro f2 s h1 h2
    cases s with
    | nil => cases f2 <;> rfl
    | cons c rest =>
      cases f2 with
      | zero => simp at h2
      | succ m =>
        simp only [List.length_cons] at h1 h2
        simp only [sub378F]
        split
        next after heq =>
          have := resTallyAt_length_lt (c :: rest) after heq
          simp only [List.length_cons] at this
          rw [ih m after (by omega) (by omega)]
        next => rw [ih m rest (by omega) (by omega)]

theorem findMembersF_fuel :
    ∀ (f1 f2 : Nat) (s : List Char), s.length ≤ f1 → s.length ≤ f2 →
      findMembersF f1 s = findMembersF f2 s := by
  intro f1
  induction f1 with
  | zero =>
    intro f2 s h1 h2
    have hnil : s = [] := List.length_eq_zero.mp (Nat.le_zero.mp h1)
    subst hnil
    cases f2 <;> rfl
  | succ n ih =>
    intro f2 s h1 h2
    cases s with
    | nil => cases f2 <;> rfl
    | cons c rest =>
      cases f2 with
      | zero => simp at h2
      | succ m =>
        simp only [List.length_cons] at h1 h2
        simp only [findMembersF]
        split
        next name after heq =>
          have := parseMemberAt_length_lt (c :: rest) name after heq
          simp only [List.length_cons] at this
          rw [ih m after (by omega) (by omega)]
        next => rw [ih m rest (by omega) (by omega)]

theorem minutesLoopF_fuel (roster : List (List Char)) :
    ∀ (f1 f2 : Nat) (curSec : Option Nat) (ls : List (List Char)),
      ls.length ≤ f1 → ls.length ≤ f2 →
      minutesLoopF roster f1 curSec ls = minutesLoopF roster f2 curSec ls := by
  intro f1
  induction f1 with
  | zero =>
    intro f2 curSec ls h1 h2
    have hnil : ls = [] := List.length_eq_zero.mp (Nat.le_zero.mp h1)
    subst hnil
    cases f2 <;> rfl
  | succ n ih =>
    intro f2 curSec ls h1 h2
    cases ls with
    | nil => cases f2 <;> rfl
    | cons l rest =>
      cases f2 with
      | zero => simp at h2
      | succ m =>
        simp only [List.length_cons] at h1 h2
        have hle := minutesStep_rest_le curSec roster l rest
        simp only [minutesLoopF]
        rw [ih m (minutesStep curSec roster l rest).curSec
          (minutesStep curSec roster l rest).rest (by omega) (by omega)]

theorem agendaLoopF_fuel :
    ∀ (f1 f2 : Nat) (cur : Option Section) (acc : List Section) (ls : List (List Char)),
      ls.length ≤ f1 → ls.length ≤ f2 →
      agendaLoopF f1 cur acc ls = agendaLoopF f2 cur acc ls := by
  intro f1
  induction f1 with
  | zero =>
    intro f2 cur acc ls h1 h2
    have hnil : ls = [] := List.length_eq_zero.mp (Nat.le_zero.mp h1)
    subst hnil
    cases f2 <;> rfl
  | succ n ih =>
    intro f2 cur acc ls h1 h2
    cases ls with
    | nil => cases f2 <;> rfl
    | cons l rest =>
      cases f2 with
      | zero => simp at h2
      | succ m =>
        simp only [List.length_cons] at h1 h2
        have hle := agendaStep_rest_le cur l rest
        simp only [agendaLoopF]
        rw [ih m (agendaStep cur l rest).cur (acc ++ (agendaStep cur l rest).emitted)
          (agendaStep cur l rest).rest (by omega) (by omega)]

/-! ## The claims -/

/-- C7: `classify_section` depends only on the title text: the section number
argument never influences the result (the body never reads it), so any two
numbers give the same category, and — being a pure function — repeated calls
with the same title are definitionally the same value. -/
theorem c7_classify_section_pure (n1 n2 : Nat) (t : List Char) :
    classify_section n1 t = classify_section n2 t := rfl

/-- C6: on the five-line scenario input the agenda scan produces exactly one
section (number 3, type `ordinance_first_reading`) containing exactly the one
expected item with its range, file number and item type. -/
theorem c6_agenda_scenario :
    parse_agenda_sections
      [lit "3. ORDINANCES (FIRST READING)", lit "10 - 13", lit "3.1",
       lit "An Ordinance amending the zoning map.", lit "Ord. 26-006"] =
      [⟨3, lit "ORDINANCES (FIRST READING)", lit "ordinance_first_reading",
        [⟨lit "3.1", lit "An Ordinance amending the zoning map.", some 10, some 13,
          some (lit "Ord. 26-006"), lit "ordinance"⟩]⟩] := by
  decide

/-- C10: both line scans make strict progress: one outer iteration of either
scanner, run on a nonempty line sequence, leaves strictly fewer remaining
lines, so the embedded scans are total by recursion on the number of remaining
lines (the fuel `ls.length` given to the loop drivers never runs out). -/
theorem c10_scan_progress :
    (∀ (cur : Option Section) (l : List Char) (rest : List (List Char)),
      (agendaStep cur l rest).rest.length < (l :: rest).length) ∧
    (∀ (curSec : Option Nat) (roster : List (List Char)) (l : List Char)
        (rest : List (List Char)),
      (minutesStep curSec roster l rest).rest.length < (l :: rest).length) := by
  constructor
  · intro cur l rest
    have := agendaStep_rest_le cur l rest
    simp only [List.length_cons]
    omega
  · intro curSec roster l rest
    have := minutesStep_rest_le curSec roster l rest
    simp only [List.length_cons]
    omega

/-- C5: on every well-formed tally string built from one to three nonempty
decimal digit groups separated by hyphens, `parse_vote_tally` returns exactly
the decimal values `(A, N, B)`, with `B = 0` when the third group is
omitted. -/
theorem c5_parse_tally_exact (d1 d2 d3 : List Char)
    (h1 : d1 ≠ [] ∧ ∀ c ∈ d1, isDigitCh c = true)
    (h2 : d2 ≠ [] ∧ ∀ c ∈ d2, isDigitCh c = true)
    (h3 : d3 ≠ [] ∧ ∀ c ∈ d3, isDigitCh c = true) :
    parse_vote_tally (d1 ++ '-' :: d2 ++ '-' :: d3) =
      some (digitsVal d1, digitsVal d2, digitsVal d3) ∧
    parse_vote_tally (d1 ++ '-' :: d2) = some (digitsVal d1, digitsVal d2, 0) := by
  have nodash1 := fun c hc => digit_ne_dash c (h1.2 c hc)
  have nodash2 := fun c hc => digit_ne_dash c (h2.2 c hc)
  have nodash3 := fun c hc => digit_ne_dash c (h3.2 c hc)
  constructor
  · unfold parse_vote_tally
    have hstrip : pyStrip (d1 ++ '-' :: d2 ++ '-' :: d3) = d1 ++ '-' :: d2 ++ '-' :: d3 := by
      apply pyStrip_eq_self
      intro c hc
      simp only [List.mem_append, List.mem_cons] at hc
      rcases hc with (hc | hc | hc) | hc | hc
      · exact digit_not_space c (h1.2 c hc)
      · subst hc; rfl
      · exact digit_not_space c (h2.2 c hc)
      · subst hc; rfl
      · exact digit_not_space c (h3.2 c hc)
    rw [hstrip]
    have e1 : d1 ++ '-' :: d2 ++ '-' :: d3 = d1 ++ '-' :: (d2 ++ '-' :: d3) := by simp
    rw [e1, splitOnCh_append '-' d1 _ nodash1,
      splitOnCh_append '-' d2 _ nodash2,
      splitOnCh_no_sep '-' d3 nodash3]
    simp [pyIntNat_digits d1 h1.1 h1.2, pyIntNat_digits d2 h2.1 h2.2,
      pyIntNat_digits d3 h3.1 h3.2]
  · unfold parse_vote_tally
    have hstrip : pyStrip (d1 ++ '-' :: d2) = d1 ++ '-' :: d2 := by
      apply pyStrip_eq_self
      intro c hc
      simp only [List.mem_append, List.mem_cons] at hc
      rcases hc with hc | hc | hc
      · exact digit_not_space c (h1.2 c hc)
      · subst hc; rfl
      · exact digit_not_space c (h2.2 c hc)
    rw [hstrip]
    rw [splitOnCh_append '-' d1 _ nodash1, splitOnCh_no_sep '-' d2 nodash2]
    simp [pyIntNat_digits d1 h1.1 h1.2, pyIntNat_digits d2 h2.1 h2.2]

/-- Witness for C5 at the concrete tally strings `9-0-2` and `9-0`. -/
theorem c5_parse_tally_exact_witness :
    parse_vote_tally (['9'] ++ '-' :: ['0'] ++ '-' :: ['2']) =
      some (digitsVal ['9'], digitsVal ['0'], digitsVal ['2']) ∧
    parse_vote_tally (['9'] ++ '-' :: ['0']) = some (digitsVal ['9'], digitsVal ['0'], 0) :=
  c5_parse_tally_exact ['9'] ['0'] ['2'] ⟨by decide, by decide⟩ ⟨by decide, by decide⟩
    ⟨by decide, by decide⟩

/-- C4 (amended): whenever `pattern_a` classifies a line, both captured range
endpoints are at most 999 (forced by the 1-3-digit groups).  The claimed
`A ≤ B` ordering is not checked by the pattern — see `c4_counterexample`. -/
theorem c4_pattern_a_bounds (l : List Char) (a b : Nat) (num rest : List Char)
    (h : matchPatternA l = some (a, b, num, rest)) : a ≤ 999 ∧ b ≤ 999 := by
  simp only [matchPatternA, Option.bind_eq_bind, Option.bind_eq_some] at h
  obtain ⟨⟨a0, b0, s1⟩, h1, h⟩ := h
  obtain ⟨s2, h2, h⟩ := h
  obtain ⟨⟨num0, s3⟩, h3, h⟩ := h
  obtain ⟨r4, h4, h⟩ := h
  simp only [Option.some_inj, Prod.mk.injEq] at h
  obtain ⟨ha, hb, _, _⟩ := h
  subst ha hb
  exact rangeTok_bounds _ _ _ _ h1

/-- Witness for C4 on a well-formed item-header line. -/
theorem c4_pattern_a_bounds_witness :
    matchPatternA (lit "10 - 13 3.1 T") = some (10, 13, lit "3.1", lit "T") ∧
    10 ≤ 999 ∧ 13 ≤ 999 := by
  have hm : matchPatternA (lit "10 - 13 3.1 T") = some (10, 13, lit "3.1", lit "T") := by
    decide
  have hb := c4_pattern_a_bounds (lit "10 - 13 3.1 T") 10 13 (lit "3.1") (lit "T") hm
  exact ⟨hm, hb⟩

/-- C4 counterexample: a line whose first page number exceeds the second is
still classified as an item-header-with-range, refuting the claimed `A ≤ B`
requirement. -/
theorem c4_counterexample :
    matchPatternA (lit "136 - 130 10.1 X") = some (136, 130, lit "10.1", lit "X") ∧
    130 < 136 := by
  constructor
  · decide
  · decide

/-- C9: an item whose 0-indexed page range falls outside the packet bounds is
skipped with exactly one warning recorded: no output file, no manifest entry,
no page-count change, and the loop proceeds with the remaining items
unchanged. -/
theorem c9_split_out_of_bounds (packet : List (List Char)) (total : Nat)
    (it : SplitItem) (secType : List Char) (rest : List (SplitItem × List Char))
    (st : SplitState)
    (h : it.page_start - 1 < 0 ∨ it.page_end - 1 ≥ (total : Int)) :
    split_items packet total ((it, secType) :: rest) st =
      split_items packet total rest
        { st with warnings := st.warnings ++ [oobMsg it total] } := by
  conv_lhs => rw [split_items]
  rw [if_pos h]

/-- Witness for C9: an item claiming pages 1-10 of a 5-page packet. -/
theorem c9_split_out_of_bounds_witness :
    ((⟨lit "3.1", lit "T", lit "ordinance", none, 1, 10⟩ : SplitItem).page_start - 1 < 0 ∨
      (⟨lit "3.1", lit "T", lit "ordinance", none, 1, 10⟩ : SplitItem).page_end - 1 ≥
        ((5 : Nat) : Int)) ∧
    split_items [] 5 [(⟨lit "3.1", lit "T", lit "ordinance", none, 1, 10⟩, lit "resolutions")]
        ⟨[], [], [], 0⟩ =
      split_items [] 5 []
        { (⟨[], [], [], 0⟩ : SplitState) with
          warnings := (⟨[], [], [], 0⟩ : SplitState).warnings ++
            [oobMsg ⟨lit "3.1", lit "T", lit "ordinance", none, 1, 10⟩ 5] } := by
  refine ⟨by decide, ?_⟩
  exact c9_split_out_of_bounds [] 5 ⟨lit "3.1", lit "T", lit "ordinance", none, 1, 10⟩
    (lit "resolutions") [] ⟨[], [], [], 0⟩ (by decide)

/-- C1 (amended): for a withdrawn result without a tally the emitted record
carries the `votes` field with an explicitly empty breakdown (it is not
omitted); `votes` is omitted when no result was found, or when a result other
than withdrawn has no tally; and `vote_detail` is omitted whenever the
collected detail text is empty (the field is never an empty string). -/
theorem c1_votes_field (roster : List (List Char)) (num : List Char)
    (ls : List (List Char)) (tally : Option (List Char)) (detail : List Char)
    (r : List Char) :
    (lowerStr r = lit "withdrawn" → optTruthy tally = false →
      assembleVotes (some r) tally detail roster = some ⟨[], [], [], []⟩) ∧
    assembleVotes none tally detail roster = none ∧
    (lowerStr r ≠ lit "withdrawn" → tally = none →
      assembleVotes (some r) tally detail roster = none) ∧
    (buildMinutesItem roster num ls).vote_detail ≠ some [] := by
  refine ⟨?_, rfl, ?_, ?_⟩
  · intro hw ht
    simp only [assembleVotes]
    rw [if_pos]
    simp [hw, ht]
  · intro hw ht
    subst ht
    simp only [assembleVotes]
    rw [if_neg]
    · simp [optTruthy]
    · simp only [Bool.and_eq_true, Bool.not_eq_true']
      intro hcontra
      exact hw (of_decide_eq_true hcontra.1)
  · unfold buildMinutesItem
    dsimp only
    split
    · simp
    · simp_all

/-- Witness for C1 at concrete assembly inputs. -/
theorem c1_votes_field_witness :
    assembleVotes (some (lit "Withdrawn")) none [] [] = some ⟨[], [], [], []⟩ ∧
    assembleVotes none none [] [] = none ∧
    assembleVotes (some (lit "Approved")) none [] [] = none ∧
    (buildMinutesItem [] (lit "3.1") []).vote_detail ≠ some [] :=
  ⟨(c1_votes_field [] (lit "3.1") [] none [] (lit "Withdrawn")).1 (by decide) (by decide),
   (c1_votes_field [] (lit "3.1") [] none [] (lit "Withdrawn")).2.1,
   (c1_votes_field [] (lit "3.1") [] none [] (lit "Approved")).2.2.1 (by decide) rfl,
   (c1_votes_field [] (lit "3.1") [] none [] (lit "Approved")).2.2.2⟩

/-- C1 counterexample: a withdrawn item without a tally is emitted with
`votes` present (the empty breakdown), not with the field omitted as the
claim states. -/
theorem c1_counterexample :
    parse_minutes_items [lit "Ridley"] [lit "3.1 X", lit "Withdrawn"] =
      [⟨lit "3.1", some (lit "X"), none, some (lit "withdrawn"), none,
        some ⟨[], [], [], []⟩, none⟩] ∧
    (parse_minutes_items [lit "Ridley"] [lit "3.1 X", lit "Withdrawn"]).map
        MinutesItem.votes ≠ [none] := by
  constructor
  · decide
  · decide

/-- C8: every record the minutes scan emits carries an item number whose
section-prefix lies in {3, 4, 9, 10}; candidates with any other prefix never
contribute a record (the guard at lines 264-269 is the only gate to the
item-emitting branch, and the item number passes through unchanged). -/
theorem c8_minutes_prefix_domain (roster : List (List Char)) (ls : List (List Char))
    (it : MinutesItem) (h : it ∈ parse_minutes_items roster ls) :
    minutesSecs.contains (sectionPfx it.item_number) = true :=
  minutesLoopF_pfx roster ls.length none ls it h

/-- Witness for C8 on a one-item scan. -/
theorem c8_minutes_prefix_domain_witness :
    minutesSecs.contains (sectionPfx
      (MinutesItem.mk (lit "3.1") (some (lit "X")) none none none none none).item_number) =
      true :=
  c8_minutes_prefix_domain [] [lit "3.1 X"]
    (MinutesItem.mk (lit "3.1") (some (lit "X")) none none none none none) (by decide)

/-- C3 (amended, agenda side): in the agenda scan the prefix guard is
complete — every item of every emitted section has an item number starting
with that section's number and a dot, so a candidate with a different
section-prefix is never accepted while the section is open.  (The minutes
scan has no such guard — see `c3_counterexample`.) -/
theorem c3_agenda_prefix_guard (ls : List (List Char)) (sec : Section) (it : AgendaItem)
    (h1 : sec ∈ parse_agenda_sections ls) (h2 : it ∈ sec.items) :
    (secDotPrefixOf sec.number).isPrefixOf it.item_number = true :=
  agendaLoopF_inv ls.length none [] ls (by simp) (by simp) sec h1 it h2

/-- Witness for C3 on a two-line agenda. -/
theorem c3_agenda_prefix_guard_witness :
    (secDotPrefixOf (Section.mk 1 (lit "CLAIMS") (lit "claims")
      [AgendaItem.mk (lit "1.1") (lit "X") none none none (lit "claims")]).number).isPrefixOf
      (AgendaItem.mk (lit "1.1") (lit "X") none none none (lit "claims")).item_number = true :=
  c3_agenda_prefix_guard [lit "1. CLAIMS", lit "1.1 X"]
    (Section.mk 1 (lit "CLAIMS") (lit "claims")
      [AgendaItem.mk (lit "1.1") (lit "X") none none none (lit "claims")])
    (AgendaItem.mk (lit "1.1") (lit "X") none none none (lit "claims"))
    (by decide) (by decide)

/-- C3 counterexample (minutes side): with section 9 just opened, the item
candidate `10.1` — whose section-prefix differs from the open section — is
still accepted and emitted by the minutes scan, refuting the claim for the
minutes line scan cited by its sources. -/
theorem c3_counterexample :
    (parse_minutes_items [lit "Ridley"] [lit "9. CLAIMS", lit "10.1 X"]).map
        MinutesItem.item_number = [lit "10.1"] ∧
    muSectionMatch (lit "9. CLAIMS") [lit "10.1 X"] = some 9 ∧
    sectionPfx (lit "10.1") ≠ natToChars 9 := by
  refine ⟨by decide, by decide, by decide⟩

/-- C2 (amended): the size invariant
`|aye| + |nay| + |abstain| + |absent| = |roster|` holds whenever the members
named in the detail text are pairwise distinct roster members (which real
detail lines satisfy); off-roster or repeated names inflate the total — see
`c2_counterexample`.  Under the additional consistency of the tally with the
detail classification (`tallyMatchesDetail`), the tally counts equal the list
sizes. -/
theorem c2_breakdown_counts
    (roster : List (List Char)) (result tally detail : List Char)
    (ayes nays abst : Nat) (v : VoteBreakdown)
    (hr : roster.Nodup)
    (hL : (extract_named_members detail roster).Nodup)
    (hsub : ∀ x ∈ extract_named_members detail roster, x ∈ roster)
    (ht : parse_vote_tally tally = some (ayes, nays, abst))
    (hb : build_vote_breakdown result tally detail roster = some v) :
    v.aye.length + v.nay.length + v.abstain.length + v.absent.length = roster.length ∧
    (tallyMatchesDetail roster ayes nays abst detail →
      v.aye.length = ayes ∧ v.nay.length = nays ∧ v.abstain.length = abst) := by
  obtain ⟨hc1, hc2⟩ :=
    filter_not_mem_length roster (extract_named_members detail roster) hr hL hsub
  have hnilf : roster.filter (fun m => decide (m ∉ ([] : List (List Char)))) = roster :=
    List.filter_eq_self.mpr (fun a _ => by simp)
  cases hnay : detailHasNay detail with
  | true =>
    have habst := hasNay_not_hasAbstain detail hnay
    have hie : detail.isEmpty = false := by
      unfold detailHasNay at hnay
      rw [Bool.and_eq_true] at hnay
      simpa using hnay.1
    simp only [build_vote_breakdown, ht, Option.bind_eq_bind, Option.some_bind,
      hnay, habst, if_true, Bool.false_eq_true, if_false, hie,
      List.append_nil, List.nil_append] at hb
    split at hb
    next hcond =>
      rw [Bool.and_eq_true, decide_eq_true_eq, decide_eq_true_eq] at hcond
      injection hb with hb
      subst hb
      dsimp only
      simp only [List.length_nil]
      rw [List.length_take, List.length_drop, Nat.min_eq_left (Nat.le_of_lt hcond.2)]
      refine ⟨by omega, ?_⟩
      intro hm
      obtain ⟨hn, ha⟩ := hm.1 hnay
      omega
    next hcond =>
      simp only [Bool.not_eq_true, Bool.and_eq_false_iff] at hcond
      injection hb with hb
      subst hb
      dsimp only
      simp only [List.length_nil]
      refine ⟨by omega, ?_⟩
      intro hm
      obtain ⟨hn, ha⟩ := hm.1 hnay
      have h4 := hm.2.2.2
      rcases hcond with hcond | hcond <;> rw [decide_eq_false_iff_not] at hcond <;> omega
  | false =>
    cases habst : detailHasAbstain detail with
    | true =>
      have hie : detail.isEmpty = false := by
        unfold detailHasAbstain at habst
        rw [Bool.and_eq_true, Bool.and_eq_true] at habst
        simpa using habst.1.1
      simp only [build_vote_breakdown, ht, Option.bind_eq_bind, Option.some_bind,
        hnay, habst, if_true, Bool.false_eq_true, if_false, hie,
        List.append_nil, List.nil_append] at hb
      split at hb
      next hcond =>
        rw [Bool.and_eq_true, decide_eq_true_eq, decide_eq_true_eq] at hcond
        injection hb with hb
        subst hb
        dsimp only
        simp only [List.length_nil]
        rw [List.length_take, List.length_drop, Nat.min_eq_left (Nat.le_of_lt hcond.2)]
        refine ⟨by omega, ?_⟩
        intro hm
        obtain ⟨ha, hn⟩ := hm.2.1 hnay habst
        omega
      next hcond =>
        simp only [Bool.not_eq_true, Bool.and_eq_false_iff] at hcond
        injection hb with hb
        subst hb
        dsimp only
        simp only [List.length_nil]
        refine ⟨by omega, ?_⟩
        intro hm
        obtain ⟨ha, hn⟩ := hm.2.1 hnay habst
        have h4 := hm.2.2.2
        rcases hcond with hcond | hcond <;> rw [decide_eq_false_iff_not] at hcond <;> omega
    | false =>
      simp only [build_vote_breakdown, ht, Option.bind_eq_bind, Option.some_bind,
        hnay, habst, Bool.false_eq_true, if_false,
        List.append_nil, List.nil_append, hnilf] at hb
      split at hb
      next hcond =>
        rw [Bool.and_eq_true, decide_eq_true_eq, decide_eq_true_eq] at hcond
        injection hb with hb
        subst hb
        dsimp only
        simp only [List.length_nil]
        rw [List.length_take, List.length_drop, Nat.min_eq_left (Nat.le_of_lt hcond.2)]
        refine ⟨by omega, ?_⟩
        intro hm
        obtain ⟨hn, ha⟩ := hm.2.2.1 hnay habst
        omega
      next hcond =>
        simp only [Bool.not_eq_true, Bool.and_eq_false_iff] at hcond
        injection hb with hb
        subst hb
        dsimp only
        simp only [List.length_nil]
        refine ⟨by omega, ?_⟩
        intro hm
        obtain ⟨hn, ha⟩ := hm.2.2.1 hnay habst
        have h4 := hm.2.2.2
        rcases hcond with hcond | hcond <;> rw [decide_eq_false_iff_not] at hcond <;> omega

/-- C2 counterexample: a detail text naming a member absent from the roster
produces a breakdown whose four lists total 2 members against a 1-member
roster, refuting the unconditional size invariant. -/
theorem c2_counterexample :
    build_vote_breakdown (lit "Approved") (lit "1-0") (lit "Councilperson Zz: nay")
        [lit "Arr"] = some ⟨[lit "Arr"], [lit "Zz"], [], []⟩ ∧
    [lit "Arr"].length + [lit "Zz"].length + ([] : List (List Char)).length +
        ([] : List (List Char)).length ≠ [lit "Arr"].length :=
  ⟨by decide, by decide⟩

/-- Witness for C2 on a two-member roster with one named nay voter. -/
theorem c2_breakdown_counts_witness :
    (VoteBreakdown.mk [lit "Ridley"] [lit "Lavarro"] [] []).aye.length +
      (VoteBreakdown.mk [lit "Ridley"] [lit "Lavarro"] [] []).nay.length +
      (VoteBreakdown.mk [lit "Ridley"] [lit "Lavarro"] [] []).abstain.length +
      (VoteBreakdown.mk [lit "Ridley"] [lit "Lavarro"] [] []).absent.length =
      [lit "Ridley", lit "Lavarro"].length ∧
    (VoteBreakdown.mk [lit "Ridley"] [lit "Lavarro"] [] []).aye.length = 1 ∧
    (VoteBreakdown.mk [lit "Ridley"] [lit "Lavarro"] [] []).nay.length = 1 ∧
    (VoteBreakdown.mk [lit "Ridley"] [lit "Lavarro"] [] []).abstain.length = 0 := by
  have h := c2_breakdown_counts [lit "Ridley", lit "Lavarro"] (lit "Approved") (lit "1-1")
    (lit "Councilperson Lavarro: nay") 1 1 0
    (VoteBreakdown.mk [lit "Ridley"] [lit "Lavarro"] [] [])
    (by decide) (by decide) (by decide) (by decide) (by decide)
  refine ⟨h.1, h.2 ?_⟩
  unfold tallyMatchesDetail
  decide
